import Mathlib

/-!
# Verification of the voice-AI outbound call orchestrator

Shallow embedding of the call-lifecycle engine of the `voice-ai-agent`
repository: the retry scheduler and status-callback handler
(`src/outgoing-call.js`), the queue worker's call-record creation
(`src/queue-processor.js`), the call-record store (`src/callDataDb.js`),
the follow-up resubmission outcome logic (`src/followup/manager.js`),
the post-call webhook signature validation (`elevenlabs` routes),
the booking-alternatives search (`ghl` routes), and the
province-extraction utility (`utils`).

Times are modelled as integer milliseconds since the Unix epoch.
JavaScript `Date` mutators that operate on the local wall clock
(`setHours`) are modelled with an explicit timezone-offset parameter
(milliseconds east of UTC), since the Node process pins no timezone.
-/

namespace VoiceAgent

/-- Milliseconds in an hour. -/
def hourMs : Int := 3600000

/-- Milliseconds in a day. -/
def dayMs : Int := 86400000

/-- `d.setHours(h, 0, 0, 0)` on a JavaScript `Date` holding UTC instant `t`,
in a process whose local timezone is `off` milliseconds east of UTC:
the instant whose local wall clock reads `h:00:00.000` on the same local day. -/
def jsSetHours (off t h : Int) : Int :=
  (t + off) - (t + off) % dayMs + h * hourMs - off

/-- The `next_time` arm of `scheduleRetry` (src/outgoing-call.js):
`target.setHours(hour,0,0,0); if (now >= target) target.setDate(target.getDate()+1)`.
Yields the UTC instant of the next strictly-future local `hour:00`. -/
def nextTimeTarget (off now hour : Int) : Int :=
  let target := jsSetHours off now hour
  if now ≥ target then target + dayMs else target

/-- The schedule entries of `RETRY_SCHEDULE` in `scheduleRetry`. -/
inductive ScheduleCfg where
  | immediate
  | delay (hours : Int)
  | next_time (hour : Int)
deriving DecidableEq, Repr

/-- `RETRY_SCHEDULE` (src/outgoing-call.js lines 109–128): entry at index
`i` governs the retry whose `retry_stage` will be `i+1`. -/
def RETRY_SCHEDULE : List ScheduleCfg :=
  [ .immediate, .delay 1, .immediate, .next_time 9, .immediate,
    .next_time 14, .immediate, .next_time 19, .immediate ]

/-- In-memory view of a `calls` row as consumed by `scheduleRetry`
(the `callDataForRetryLogic` argument). `none` models SQL NULL /
a missing JS property. -/
structure CallRow where
  callSid : String
  toNumber : Option String := none  -- the quoted "to" column
  contactId : Option String := none
  retry_count : Nat := 0
  status : Option String := none
  signedUrl : Option String := none
  fullName : Option String := none
  firstName : Option String := none
  email : Option String := none
  answeredBy : Option String := none
  availableSlots : Option String := none
  conversationId : Option String := none
  created_at : Option Int := none
  first_attempt_timestamp : Option Int := none
  service : Option String := none
  retry_scheduled : Bool := false
  province : Option String := none
  streamSid : Option String := none
deriving DecidableEq, Repr

/-- A row inserted into `call_queue`. -/
structure QueueRow where
  contact_id : Option String
  phone_number : Option String
  first_name : Option String
  full_name : Option String
  email : Option String
  service : Option String
  province : Option String
  retry_stage : Nat
  status : String
  scheduled_at : Int
  available_slots_text : String
  initial_signed_url : Option String
  first_attempt_timestamp : Int
deriving DecidableEq, Repr

/-- JS truthiness for an optional string (`undefined`/`null`/`""` are falsy). -/
def truthy : Option String → Bool
  | none => false
  | some s => s ≠ ""

/-- `x || d` for an optional string, as used in
`callDataForRetryLogic.availableSlots || 'No availability information found.'`. -/
def orDefault (x : Option String) (d : String) : String :=
  match x with
  | some s => if s ≠ "" then s else d
  | none => d

/-- `scheduleRetry` (src/outgoing-call.js lines 69–203), modelled as the
`call_queue` row it inserts (`none` when it returns without inserting).
`off` is the server's local-timezone offset in ms, `now` the current instant,
`reason`/`forceImmediate` the `options` argument. -/
def scheduleRetry (off now : Int) (call : CallRow) (reason : String)
    (forceImmediate : Bool) : Option QueueRow :=
  let currentAttemptNumber := call.retry_count
  let isPermanentIssue :=
    reason = "no_sales_reps" ∨ reason = "permanent_failure" ∨
      (call.province = some "unknown" ∧ currentAttemptNumber ≥ 2)
  if isPermanentIssue then none
  else
    let firstAttemptTimestamp := call.first_attempt_timestamp.getD now
    if currentAttemptNumber ≥ 10 - 1 then none
    else
      let nextAttemptNumberForDB := currentAttemptNumber + 1
      let scheduleConfig := (RETRY_SCHEDULE[nextAttemptNumberForDB - 1]?).getD .immediate
      let scheduled_at :=
        if forceImmediate then now
        else match scheduleConfig with
          | .immediate => now
          | .delay h => now + h * hourMs
          | .next_time h => nextTimeTarget off now h
      some {
        contact_id := call.contactId
        phone_number := call.toNumber
        first_name := call.firstName
        full_name := call.fullName
        email := call.email
        service := call.service
        province := call.province
        retry_stage := nextAttemptNumberForDB
        status := "pending"
        scheduled_at := scheduled_at
        available_slots_text := orDefault call.availableSlots "No availability information found."
        initial_signed_url := call.signedUrl
        first_attempt_timestamp := firstAttemptTimestamp }

/-- A Twilio status callback body as read by the `/call-status` route. -/
structure StatusCallback where
  CallStatus : String
  AnsweredBy : Option String := none
deriving DecidableEq, Repr

/-- `machineDetectionStatuses` (src/outgoing-call.js line 794). -/
def machineDetectionStatuses : List String :=
  ["machine_start", "fax", "machine_beep", "machine_end_silence",
   "machine_end_other", "machine_end_beep"]

/-- `x && machineDetectionStatuses.includes(String(x).toLowerCase())`. -/
def machineMatch (x : Option String) : Bool :=
  truthy x ∧ machineDetectionStatuses.contains ((x.getD "").toLower)

/-- The `updateCallData(CallSid, { answeredBy })` step of the status handler
(guarded by `AnsweredBy && AnsweredBy !== currentAnsweredBy`). -/
def recordAnsweredBy (call : CallRow) (cb : StatusCallback) : CallRow :=
  if truthy cb.AnsweredBy ∧ cb.AnsweredBy ≠ call.answeredBy then
    { call with answeredBy := cb.AnsweredBy }
  else call

/-- The `updateCallData(CallSid, { retry_scheduled: 1 })` step. -/
def setLatch (call : CallRow) : CallRow :=
  { call with retry_scheduled := true }

/-- The `/call-status` route handler (src/outgoing-call.js lines 779–853)
acting on the `calls` row for the callback's sid: returns the updated row
and the `call_queue` row inserted by `scheduleRetry`, if any.  The
machine-detected branch also instructs Twilio to end the call; only the
persistent effects are modelled. -/
def callStatusHandler (off now : Int) (call : CallRow) (cb : StatusCallback) :
    CallRow × Option QueueRow :=
  if call.retry_scheduled then (call, none)
  else
    let isMachineDetected := machineMatch cb.AnsweredBy ∨ machineMatch call.answeredBy
    let call1 := recordAnsweredBy call cb
    if isMachineDetected ∧ cb.CallStatus ∉ ["completed", "canceled", "failed"] then
      (setLatch call1, scheduleRetry off now call1 "machine_detected" false)
    else
      let isRetryableFailure :=
        (cb.CallStatus ∈ ["completed", "canceled"] ∧ isMachineDetected) ∨
          cb.CallStatus = "no-answer" ∨ cb.CallStatus = "busy" ∨ cb.CallStatus = "failed"
      if isRetryableFailure then
        (setLatch call1, scheduleRetry off now call1 "retryable_failure" false)
      else (call1, none)

/-- Sequential processing of a sequence of status callbacks for one sid,
each arriving at its own instant; collects every `call_queue` row inserted. -/
def runCallbacks (off : Int) (call : CallRow) :
    List (Int × StatusCallback) → CallRow × List QueueRow
  | [] => (call, [])
  | (now, cb) :: rest =>
    let step := callStatusHandler off now call cb
    let tail := runCallbacks off step.1 rest
    (tail.1, step.2.toList ++ tail.2)

/-- The `data` object accepted by `setCallData` (src/callDataDb.js):
`some` marks a property present on the object.  `retry_scheduled` and
`streamSid` may be supplied but are absent from the function's column
whitelist. -/
structure SetCallDataArg where
  toNumber : Option String := none
  contactId : Option String := none
  retry_count : Option Nat := none
  status : Option String := none
  created_at : Option Int := none
  signedUrl : Option String := none
  fullName : Option String := none
  firstName : Option String := none
  email : Option String := none
  answeredBy : Option String := none
  availableSlots : Option String := none
  conversationId : Option String := none
  first_attempt_timestamp : Option Int := none
  service : Option String := none
  province : Option String := none
  retry_scheduled : Option Bool := none
  streamSid : Option String := none
deriving DecidableEq, Repr

/-- The row produced by `setCallData`'s `INSERT OR REPLACE INTO calls`:
exactly the whitelisted supplied columns are written; every other column
takes its schema default (`retry_count`/`retry_scheduled` DEFAULT 0) or
NULL.  `retry_scheduled` and `streamSid` are not in the whitelist, so a
supplied value for them is dropped. -/
def replacementRow (sid : String) (d : SetCallDataArg) : CallRow :=
  { callSid := sid
    toNumber := d.toNumber
    contactId := d.contactId
    retry_count := d.retry_count.getD 0
    status := d.status
    signedUrl := d.signedUrl
    fullName := d.fullName
    firstName := d.firstName
    email := d.email
    answeredBy := d.answeredBy
    availableSlots := d.availableSlots
    conversationId := d.conversationId
    created_at := d.created_at
    first_attempt_timestamp := d.first_attempt_timestamp
    service := d.service
    province := d.province
    retry_scheduled := false
    streamSid := none }

/-- `setCallData` (src/callDataDb.js lines 68–128) over a `calls` table
modelled as a partial map from `callSid` to row. -/
def setCallData (db : String → Option CallRow) (sid : String)
    (d : SetCallDataArg) : String → Option CallRow :=
  fun s => if s = sid then some (replacementRow sid d) else db s

/-- The `setCallData` argument built by the queue worker right after call
creation (src/queue-processor.js lines 207–222). -/
def queueWorkerSetData (q : QueueRow) (nowIso : Int) : SetCallDataArg :=
  { toNumber := q.phone_number
    contactId := q.contact_id
    retry_count := some q.retry_stage
    status := some "initiated"
    created_at := some nowIso
    signedUrl := q.initial_signed_url
    fullName := q.full_name
    firstName := q.first_name
    email := q.email
    availableSlots := some q.available_slots_text
    first_attempt_timestamp := some q.first_attempt_timestamp
    service := q.service
    province := q.province }

/-- A callback that finds the latch already set returns immediately,
touching nothing. -/
lemma handler_latched (off now : Int) (call : CallRow) (cb : StatusCallback)
    (h : call.retry_scheduled = true) :
    callStatusHandler off now call cb = (call, none) := by
  simp [callStatusHandler, h]

/-- A callback either schedules nothing, or leaves the latch set. -/
lemma handler_cases (off now : Int) (call : CallRow) (cb : StatusCallback) :
    (callStatusHandler off now call cb).2 = none ∨
      (callStatusHandler off now call cb).1.retry_scheduled = true := by
  simp only [callStatusHandler]
  split_ifs <;> simp [setLatch]

/-- If a callback schedules a retry row, the resulting `calls` row has the
latch set. -/
lemma handler_insert_latches (off now : Int) (call : CallRow) (cb : StatusCallback)
    (q : QueueRow) (h : (callStatusHandler off now call cb).2 = some q) :
    (callStatusHandler off now call cb).1.retry_scheduled = true := by
  rcases handler_cases off now call cb with h' | h'
  · rw [h'] at h; exact absurd h (by simp)
  · exact h'

/-- The latch is never cleared by a callback. -/
lemma handler_keeps_latch (off now : Int) (call : CallRow) (cb : StatusCallback)
    (h : call.retry_scheduled = true) :
    (callStatusHandler off now call cb).1.retry_scheduled = true := by
  rw [handler_latched off now call cb h]; exact h

/-- Once the latch is set, no later callback inserts anything. -/
lemma runCallbacks_latched (off : Int) (call : CallRow)
    (cbs : List (Int × StatusCallback)) (h : call.retry_scheduled = true) :
    (runCallbacks off call cbs).2 = [] := by
  induction cbs with
  | nil => rfl
  | cons p rest ih =>
    obtain ⟨now, cb⟩ := p
    simp only [runCallbacks, handler_latched off now call cb h]
    exact ih

/-- Over any callback sequence, at most one queue row is ever inserted. -/
lemma runCallbacks_at_most_one (off : Int) (call : CallRow)
    (cbs : List (Int × StatusCallback)) :
    (runCallbacks off call cbs).2.length ≤ 1 := by
  induction cbs generalizing call with
  | nil => simp [runCallbacks]
  | cons p rest ih =>
    obtain ⟨now, cb⟩ := p
    simp only [runCallbacks]
    rcases hc : (callStatusHandler off now call cb).2 with _ | q
    · simpa [hc] using ih (callStatusHandler off now call cb).1
    · have hl := handler_insert_latches off now call cb q hc
      have hrest := runCallbacks_latched off _ rest hl
      simp [hc, hrest]

/-- Concrete rows used to witness the claims below. -/
def exCall : CallRow := { callSid := "CA123" }

def exLatched : CallRow := { callSid := "CA123", retry_scheduled := true }

def exCb : StatusCallback := { CallStatus := "no-answer" }

/-- The queue row `scheduleRetry` inserts for `exCall` at instant 0 after a
retryable failure. -/
def exQueueRow : QueueRow :=
  { contact_id := none, phone_number := none, first_name := none,
    full_name := none, email := none, service := none, province := none,
    retry_stage := 1, status := "pending", scheduled_at := 0,
    available_slots_text := "No availability information found.",
    initial_signed_url := none, first_attempt_timestamp := 0 }

/-- **C2.** For every sequence of telephony status callbacks delivered for one
call sid, at most one retry row is ever scheduled: the handler sets the
`retry_scheduled` latch on the `calls` row before invoking the scheduler, and
any callback that observes the latch already set returns immediately without
scheduling anything. -/
theorem call_status_at_most_one_retry (off : Int) (call : CallRow)
    (cbs : List (Int × StatusCallback)) :
    (∀ now cb, call.retry_scheduled = true →
      callStatusHandler off now call cb = (call, none)) ∧
    (∀ now cb q, (callStatusHandler off now call cb).2 = some q →
      (callStatusHandler off now call cb).1.retry_scheduled = true) ∧
    (runCallbacks off call cbs).2.length ≤ 1 :=
  ⟨fun now cb h => handler_latched off now call cb h,
   fun now cb q h => handler_insert_latches off now call cb q h,
   runCallbacks_at_most_one off call cbs⟩

/-- Witness for C2 at concrete inputs: a latched row short-circuits, a
scheduling callback latches, and a duplicate-callback sequence inserts at
most one row. -/
theorem call_status_at_most_one_retry_witness :
    callStatusHandler 0 0 exLatched exCb = (exLatched, none) ∧
    (callStatusHandler 0 0 exCall exCb).1.retry_scheduled = true ∧
    (runCallbacks 0 exCall [(0, exCb), (5, exCb)]).2.length ≤ 1 :=
  ⟨(call_status_at_most_one_retry 0 exLatched []).1 0 exCb rfl,
   (call_status_at_most_one_retry 0 exCall []).2.1 0 exCb exQueueRow (by decide),
   (call_status_at_most_one_retry 0 exCall [(0, exCb), (5, exCb)]).2.2⟩

/-- **C3.** Along a retry chain, `retry_count` strictly increases by one per
scheduled retry and never exceeds 9: a queue row inserted by `scheduleRetry`
for a call with `retry_count = r` carries `retry_stage = r + 1 ≤ 9`, the
queue worker's fresh `calls` row stores that stage as its `retry_count`, and
`scheduleRetry` invoked on a call whose `retry_count` is already 9 (the 10th
total attempt) schedules nothing. -/
theorem retry_chain_strictly_increases (off now nowIso : Int) (sid : String)
    (c : CallRow) (reason : String) (fi : Bool) (q : QueueRow)
    (h : scheduleRetry off now c reason fi = some q) :
    q.retry_stage = c.retry_count + 1 ∧ q.retry_stage ≤ 9 ∧
    (replacementRow sid (queueWorkerSetData q nowIso)).retry_count = c.retry_count + 1 ∧
    (∀ (off' now' : Int) (c' : CallRow) (reason' : String) (fi' : Bool),
      9 ≤ c'.retry_count → scheduleRetry off' now' c' reason' fi' = none) := by
  have cap : ∀ (off' now' : Int) (c' : CallRow) (reason' : String) (fi' : Bool),
      9 ≤ c'.retry_count → scheduleRetry off' now' c' reason' fi' = none := by
    intro off' now' c' reason' fi' h9
    have h10 : c'.retry_count ≥ 10 - 1 := by omega
    simp [scheduleRetry, h10]
  simp only [scheduleRetry] at h
  split_ifs at h <;>
    (obtain rfl := (Option.some_inj.mp h).symm
     exact ⟨rfl, show c.retry_count + 1 ≤ 9 by omega,
       show (some (c.retry_count + 1)).getD 0 = c.retry_count + 1 by simp, cap⟩)

/-- A fully-populated `calls` row (the state after a live call recorded
answer data, a conversation id, a stream sid and the retry latch). -/
def exPopulated : CallRow :=
  { callSid := "CA123", toNumber := some "+393331112223",
    contactId := some "K1", retry_count := 3, status := some "in-progress",
    signedUrl := some "wss://example/signed", fullName := some "Mario Rossi",
    firstName := some "Mario", email := some "m@example.com",
    answeredBy := some "human", availableSlots := some "Lun 17-03-2025: 10:00",
    conversationId := some "conv9", created_at := some 1000,
    first_attempt_timestamp := some 500, service := some "Infissi",
    retry_scheduled := true, province := some "RM", streamSid := some "MZ1" }

/-- A `setCallData` data object carrying only a status. -/
def exStatusOnly : SetCallDataArg := { status := some "completed" }

/-- Witness for C3 at concrete inputs: a retryable failure on a
`retry_count = 0` call inserts the stage-1 row, and its dequeued `calls`
row stores `retry_count = 1`. -/
theorem retry_chain_strictly_increases_witness :
    scheduleRetry 0 0 exCall "retryable_failure" false = some exQueueRow ∧
    exQueueRow.retry_stage = exCall.retry_count + 1 ∧
    (replacementRow "CA124" (queueWorkerSetData exQueueRow 0)).retry_count =
      exCall.retry_count + 1 :=
  ⟨by decide,
   (retry_chain_strictly_increases 0 0 0 "CA124" exCall "retryable_failure" false
     exQueueRow (by decide)).1,
   (retry_chain_strictly_increases 0 0 0 "CA124" exCall "retryable_failure" false
     exQueueRow (by decide)).2.2.1⟩

/-- **C10.** `setCallData` on a `callSid` that already has a `calls` row is a
destructive whole-row replacement, not a merge: the stored row is exactly the
replacement row built from the supplied data (independent of the previous
row), every whitelisted column not present in the supplied data is NULL (or
its schema default, 0, for `retry_count`), `retry_scheduled` and `streamSid`
are always reset since they are outside the column whitelist, and a column
holds a value only if the data supplied it. -/
theorem setCallData_whole_row_replacement (db : String → Option CallRow)
    (sid : String) (old : CallRow) (d : SetCallDataArg)
    (h : db sid = some old) :
    setCallData db sid d sid = some (replacementRow sid d) ∧
    (∀ db' : String → Option CallRow,
      setCallData db' sid d sid = setCallData db sid d sid) ∧
    (replacementRow sid d).retry_scheduled = false ∧
    (replacementRow sid d).streamSid = none ∧
    (d.answeredBy = none → (replacementRow sid d).answeredBy = none) ∧
    (d.conversationId = none → (replacementRow sid d).conversationId = none) ∧
    (d.status = none → (replacementRow sid d).status = none) ∧
    (d.retry_count = none → (replacementRow sid d).retry_count = 0) ∧
    (∀ v, (replacementRow sid d).answeredBy = some v → d.answeredBy = some v) ∧
    (∀ v, (replacementRow sid d).conversationId = some v → d.conversationId = some v) ∧
    (∀ v, (replacementRow sid d).availableSlots = some v → d.availableSlots = some v) ∧
    (∀ v, (replacementRow sid d).signedUrl = some v → d.signedUrl = some v) := by
  refine ⟨by simp [setCallData], fun db' => by simp [setCallData], rfl, rfl,
    fun hd => ?_, fun hd => ?_, fun hd => ?_, fun hd => ?_,
    fun v hv => hv, fun v hv => hv, fun v hv => hv, fun v hv => hv⟩ <;>
    simp [replacementRow, hd]

/-- Witness for C10: updating a fully-populated row with a data object that
only carries a status resets `answeredBy`, `conversationId`, `streamSid` and
the `retry_scheduled` latch. -/
theorem setCallData_whole_row_replacement_witness :
    (fun _ : String => some exPopulated) "CA123" = some exPopulated ∧
    setCallData (fun _ => some exPopulated) "CA123" exStatusOnly "CA123" =
      some (replacementRow "CA123" exStatusOnly) ∧
    (replacementRow "CA123" exStatusOnly).retry_scheduled = false ∧
    (replacementRow "CA123" exStatusOnly).answeredBy = none :=
  ⟨rfl,
   (setCallData_whole_row_replacement (fun _ => some exPopulated) "CA123"
     exPopulated exStatusOnly rfl).1,
   (setCallData_whole_row_replacement (fun _ => some exPopulated) "CA123"
     exPopulated exStatusOnly rfl).2.2.1,
   (setCallData_whole_row_replacement (fun _ => some exPopulated) "CA123"
     exPopulated exStatusOnly rfl).2.2.2.2.1 rfl⟩

/-- The instant `scheduleRetry` assigns to the retry of a call whose
`retry_count` is `r` (schedule entry at index `r`), on a server whose
local clock is `off` ms east of UTC. -/
def scheduledAtFor (off now : Int) (r : Nat) : Int :=
  match (RETRY_SCHEDULE[r]?).getD .immediate with
  | .immediate => now
  | .delay h => now + h * hourMs
  | .next_time h => nextTimeTarget off now h

/-- Europe/Rome standard-time offset (CET, UTC+1), in force at the epoch. -/
def romeWinterOffsetMs : Int := hourMs

/-- A call whose province resolved to the literal `"unknown"`, on its third
attempt. -/
def exUnknownProv : CallRow :=
  { callSid := "CA125", province := some "unknown", retry_count := 2 }

/-- A call on its fourth attempt (`retry_count = 3`, next index 4). -/
def exStage3 : CallRow := { callSid := "CA126", retry_count := 3 }

/-- Counterexample to C1 as stated.  At the epoch instant on a server whose
local clock is UTC: (1) a retryable callback for a call with
`retry_count = 2` and `province = "unknown"` takes the permanent-issue path
and inserts no `call_queue` row at all; (2) for `retry_count = 3` (next
index 4) the inserted row is scheduled at 09:00 *server-local* time
(`09:00Z`), which is not the next occurrence of 09:00 Europe/Rome
(`08:00Z` under CET). -/
theorem retry_schedule_counterexample :
    scheduleRetry 0 0 exUnknownProv "retryable_failure" false = none ∧
    (scheduleRetry 0 0 exStage3 "retryable_failure" false).map
      QueueRow.scheduled_at = some (9 * hourMs) ∧
    nextTimeTarget romeWinterOffsetMs 0 9 = 8 * hourMs ∧
    (9 * hourMs : Int) ≠ 8 * hourMs := by
  refine ⟨by decide, by decide, by decide, by decide⟩

/-- **C1 (amended).** For every retryable status callback (`scheduleRetry`
reason `machine_detected` or `retryable_failure`) on a call with
`retry_count = r ≤ 8` — *except* calls whose stored province is the literal
`"unknown"` with `r ≥ 2`, which take the permanent-issue path and schedule
nothing — the scheduler inserts exactly one `call_queue` row with
`retry_stage = r + 1`, status `pending`, carrying forward
`first_attempt_timestamp`, `service`, `province`, the stored slot text and
the stored initial signed URL, scheduled by the fixed table for next index
`r + 1`: indices 1, 3, 5, 7, 9 are immediate (`scheduled_at = now`), index 2
is `now` + 1 hour, and indices 4, 6, 8 are the next occurrence of 09:00,
14:00 and 19:00 respectively on the *server's local clock* (which is
Europe/Rome wall time only when the process runs in that timezone). -/
theorem retry_schedule_inserts_row (off now : Int) (c : CallRow)
    (reason : String) (slots : String) (f : Int)
    (hreason : reason = "machine_detected" ∨ reason = "retryable_failure")
    (hr : c.retry_count ≤ 8)
    (hperm : ¬(c.province = some "unknown" ∧ 2 ≤ c.retry_count))
    (hslots : c.availableSlots = some slots) (hs : slots ≠ "")
    (hf : c.first_attempt_timestamp = some f) :
    scheduleRetry off now c reason false = some
      { contact_id := c.contactId, phone_number := c.toNumber,
        first_name := c.firstName, full_name := c.fullName, email := c.email,
        service := c.service, province := c.province,
        retry_stage := c.retry_count + 1, status := "pending",
        scheduled_at := scheduledAtFor off now c.retry_count,
        available_slots_text := slots,
        initial_signed_url := c.signedUrl, first_attempt_timestamp := f } ∧
    (scheduledAtFor off now 0 = now ∧ scheduledAtFor off now 2 = now ∧
     scheduledAtFor off now 4 = now ∧ scheduledAtFor off now 6 = now ∧
     scheduledAtFor off now 8 = now) ∧
    scheduledAtFor off now 1 = now + hourMs ∧
    scheduledAtFor off now 3 = nextTimeTarget off now 9 ∧
    scheduledAtFor off now 5 = nextTimeTarget off now 14 ∧
    scheduledAtFor off now 7 = nextTimeTarget off now 19 := by
  have hperm' : ¬(reason = "no_sales_reps" ∨ reason = "permanent_failure" ∨
      (c.province = some "unknown" ∧ c.retry_count ≥ 2)) := by
    rcases hreason with h | h <;> subst h <;> simp_all
  have hcap : ¬(c.retry_count ≥ 10 - 1) := by omega
  refine ⟨?_, ?_, rfl, rfl, rfl, rfl⟩
  · simp only [scheduleRetry, hperm', if_false, hcap, hf, Option.getD_some,
      if_neg, Bool.false_eq_true, scheduledAtFor]
    simp [orDefault, hslots, hs]
  · exact ⟨rfl, rfl, rfl, rfl, rfl⟩

/-- A call row ready for its fourth attempt with stored context. -/
def exRetryCall : CallRow :=
  { callSid := "CA127", toNumber := some "+393331112223",
    contactId := some "K1", retry_count := 3,
    signedUrl := some "wss://example/signed",
    availableSlots := some "Lun 17-03-2025: 10:00",
    first_attempt_timestamp := some 500, service := some "Infissi",
    province := some "RM" }

/-- Witness for the amended C1 at concrete inputs. -/
theorem retry_schedule_inserts_row_witness :
    scheduleRetry 0 0 exRetryCall "retryable_failure" false = some
      { contact_id := some "K1", phone_number := some "+393331112223",
        first_name := none, full_name := none, email := none,
        service := some "Infissi", province := some "RM",
        retry_stage := 4, status := "pending",
        scheduled_at := scheduledAtFor 0 0 3,
        available_slots_text := "Lun 17-03-2025: 10:00",
        initial_signed_url := some "wss://example/signed",
        first_attempt_timestamp := 500 } :=
  (retry_schedule_inserts_row 0 0 exRetryCall "retryable_failure"
    "Lun 17-03-2025: 10:00" 500 (Or.inr rfl) (by decide) (by simp [exRetryCall])
    rfl (by decide) rfl).1

/-! ## Follow-up resubmission outcome (src/followup/manager.js) -/

/-- `pat` occurs as a contiguous sublist of `l`. -/
def containsSub (pat : List Char) : List Char → Bool
  | [] => pat.isEmpty
  | c :: cs => pat.isPrefixOf (c :: cs) || containsSub pat cs

/-- `body.includes(pat)` for JavaScript strings. -/
def strIncludes (body pat : String) : Bool :=
  containsSub pat.data body.data

/-- What `checkAndProcessFollowUps` does with a follow-up row after the
resubmission to the intake endpoint answers. -/
inductive FollowUpAction where
  | deleteRow        -- `response.ok`: delete the follow-up
  | deleteAndNotify  -- permanent failure: notify, then delete
  | keep             -- temporary failure: keep for the next tick
deriving DecidableEq, Repr

/-- The resubmission outcome handling of `checkAndProcessFollowUps`
(src/followup/manager.js lines 421–474): `response.ok` means a 2xx status;
the permanent-failure test requires status exactly 400 together with any of
the five sentinel substrings in the error body. -/
def followUpResubmitOutcome (status : Nat) (body : String) : FollowUpAction :=
  if 200 ≤ status ∧ status ≤ 299 then .deleteRow
  else
    let isPermanentFailure := status = 400 ∧
      (strIncludes body "No sales representatives available" ∨
       strIncludes body "service and location" ∨
       strIncludes body "not in right area" ∨
       strIncludes body "Address is required" ∨
       strIncludes body "service field is required")
    if isPermanentFailure then .deleteAndNotify else .keep

/-- Counterexample to C9 as stated: a 404 response whose body contains the
sentinel message `Address is required` is *kept* for the next tick, not
deleted — the permanent-failure test requires status exactly 400, not any
4xx. -/
theorem followup_4xx_counterexample :
    followUpResubmitOutcome 404 "Address is required" = .keep ∧
    FollowUpAction.keep ≠ .deleteAndNotify := by
  refine ⟨by decide, by decide⟩

/-- **C9 (amended).** For every due follow-up processed by the sweeper,
resubmission yields exactly one of three outcomes: on any 2xx response the
row is deleted; on a **400** response whose body contains one of the
sentinel messages (`No sales representatives available`, `not in right
area`, `Address is required`, `service field is required`) the row is
deleted and a notification is sent; on any other failure the row is kept
for the next tick. -/
theorem followup_resubmit_outcomes (status : Nat) (body : String) :
    (200 ≤ status ∧ status ≤ 299 → followUpResubmitOutcome status body = .deleteRow) ∧
    (status = 400 ∧
      (strIncludes body "No sales representatives available" ∨
       strIncludes body "not in right area" ∨
       strIncludes body "Address is required" ∨
       strIncludes body "service field is required") →
      followUpResubmitOutcome status body = .deleteAndNotify) ∧
    (¬(200 ≤ status ∧ status ≤ 299) →
      ¬(status = 400 ∧
        (strIncludes body "No sales representatives available" ∨
         strIncludes body "service and location" ∨
         strIncludes body "not in right area" ∨
         strIncludes body "Address is required" ∨
         strIncludes body "service field is required")) →
      followUpResubmitOutcome status body = .keep) := by
  refine ⟨fun h2 => ?_, fun hp => ?_, fun h2 hp => ?_⟩
  · simp [followUpResubmitOutcome, h2]
  · obtain ⟨h400, hsent⟩ := hp
    have hnot2 : ¬(200 ≤ status ∧ status ≤ 299) := by omega
    simp only [followUpResubmitOutcome, hnot2, if_false]
    rw [if_pos]
    exact ⟨h400, by tauto⟩
  · simp only [followUpResubmitOutcome, h2, if_false]
    rw [if_neg hp]

/-- Witness for C9 at concrete inputs: 201 deletes, a sentinel 400 deletes
with a notification, a 500 keeps. -/
theorem followup_resubmit_outcomes_witness :
    followUpResubmitOutcome 201 "" = .deleteRow ∧
    followUpResubmitOutcome 400 "not in right area" = .deleteAndNotify ∧
    followUpResubmitOutcome 500 "boom" = .keep :=
  ⟨(followup_resubmit_outcomes 201 "").1 (by decide),
   (followup_resubmit_outcomes 400 "not in right area").2.1
     ⟨rfl, by decide⟩,
   (followup_resubmit_outcomes 500 "boom").2.2 (by decide) (by decide)⟩

/-! ## Post-call webhook signature validation (elevenlabs routes,
`POST /elevenlabs/webhook`) -/

/-- An incoming webhook request as seen by the route: `bodyOk` is the
STEP-1 body validation (body present and a JSON object), `rawBody` the raw
request body preserved for HMAC, `signature` the `elevenlabs-signature`
header, `msgType` the body's `type` field. -/
structure WebhookRequest where
  bodyOk : Bool
  rawBody : String
  signature : Option String
  msgType : Option String
deriving DecidableEq, Repr

/-- The route's terminal behaviours.  Only `processed` performs the
post-call pipeline's side effects (the `calls` update, the CRM note and
the success notification). -/
inductive WebhookOutcome where
  | badRequest (msg : String)     -- 400
  | unauthorized (msg : String)   -- 401
  | ignored                       -- 200, unsupported type
  | processed                     -- 200, post_call_transcription pipeline
deriving DecidableEq, Repr

/-- `s.split(sep)` for a JavaScript string, at the character level. -/
def splitOnChar (sep : Char) : List Char → List (List Char)
  | [] => [[]]
  | c :: cs =>
    let r := splitOnChar sep cs
    if c = sep then [] :: r
    else match r with
      | [] => [[c]]
      | g :: gs => (c :: g) :: gs

/-- Parsing of the `t=<ts>,v0=<hash>` signature header (split on `,`, each
part split on `=`, with the exact key checks and non-emptiness checks of
the route). -/
def parseSignature (sig : String) : Option (String × String) :=
  match splitOnChar ',' sig.data with
  | [p1, p2] =>
    match splitOnChar '=' p1, splitOnChar '=' p2 with
    | [k1, v1], [k2, v2] =>
      if k1 = "t".data ∧ k2 = "v0".data ∧ v1 ≠ [] ∧ v2 ≠ [] then
        some (⟨v1⟩, ⟨v2⟩) else none
    | _, _ => none
  | _ => none

/-- `parseInt` on a plain unsigned decimal string: value of the longest
leading digit run, or `NaN` (`none`) when there is none. -/
def jsParseInt (s : String) : Option Int :=
  let ds := s.data.takeWhile Char.isDigit
  if ds.isEmpty then none
  else some (Int.ofNat (ds.foldl (fun n c => 10 * n + (c.toNat - 48)) 0))

/-- `SIGNATURE_TOLERANCE_MINUTES`. -/
def SIGNATURE_TOLERANCE_MINUTES : Int := 30

/-- The `POST /elevenlabs/webhook` route: STEP-1 body validation, STEP-2
HMAC signature validation (skipped when no secret is configured), then the
type dispatch of STEP 3.  `hmac S m` stands for the hex
`crypto.createHmac('sha256', S).update(m).digest('hex')`; `nowSec` is
`Math.floor(Date.now() / 1000)`. -/
def elevenlabsWebhook (hmac : String → String → String) (nowSec : Int)
    (secret : Option String) (req : WebhookRequest) : WebhookOutcome :=
  if ¬req.bodyOk then .badRequest "Missing request body"
  else
    let dispatch : WebhookOutcome :=
      match req.msgType with
      | none => .badRequest "Webhook type is missing"
      | some t => if t = "post_call_transcription" then .processed else .ignored
    match secret with
    | none => dispatch
    | some S =>
      match req.signature with
      | none => .unauthorized "Missing signature header"
      | some sig =>
        match parseSignature sig with
        | none => .unauthorized "Invalid signature format"
        | some (ts, hash) =>
          match jsParseInt ts with
          | none => .unauthorized "Timestamp validation failed"
          | some t =>
            if t < nowSec - SIGNATURE_TOLERANCE_MINUTES * 60 then
              .unauthorized "Timestamp validation failed"
            else if hash ≠ hmac S (ts ++ "." ++ req.rawBody) then
              .unauthorized "HMAC validation failed"
            else dispatch

/-- `true` exactly on the 401 outcomes. -/
def WebhookOutcome.isUnauthorized : WebhookOutcome → Bool
  | .unauthorized _ => true
  | _ => false

/-- **C5.** When the webhook secret is configured, a request whose signature
timestamp `t` satisfies `now − t > 30` minutes is rejected with 401, a
request whose `v0` differs from the hex HMAC-SHA-256 of `"<t>.<raw_body>"`
under the secret is rejected with 401, and no 401-rejected request ever
reaches the processing stage (the `calls` update, CRM note and success
notification happen only in the `processed` outcome). -/
theorem webhook_signature_rejection (hmac : String → String → String)
    (nowSec : Int) (S : String) (req : WebhookRequest) (sig ts hash : String)
    (t : Int) (hsig : req.signature = some sig)
    (hparse : parseSignature sig = some (ts, hash))
    (hts : jsParseInt ts = some t) :
    (nowSec - t > 30 * 60 →
      elevenlabsWebhook hmac nowSec (some S) req ≠ .processed ∧
      (req.bodyOk = true →
        elevenlabsWebhook hmac nowSec (some S) req =
          .unauthorized "Timestamp validation failed")) ∧
    (hash ≠ hmac S (ts ++ "." ++ req.rawBody) →
      elevenlabsWebhook hmac nowSec (some S) req ≠ .processed ∧
      (req.bodyOk = true →
        (elevenlabsWebhook hmac nowSec (some S) req).isUnauthorized = true)) := by
  constructor
  · intro hold
    have hlt : t < nowSec - SIGNATURE_TOLERANCE_MINUTES * 60 := by
      simp only [SIGNATURE_TOLERANCE_MINUTES]; omega
    constructor
    · by_cases hb : req.bodyOk = true
      · simp [elevenlabsWebhook, hb, hsig, hparse, hts, hlt]
      · simp [elevenlabsWebhook, hb]
    · intro hb
      simp [elevenlabsWebhook, hb, hsig, hparse, hts, hlt]
  · intro hhash
    constructor
    · by_cases hb : req.bodyOk = true
      · by_cases hlt : t < nowSec - SIGNATURE_TOLERANCE_MINUTES * 60
        · simp [elevenlabsWebhook, hb, hsig, hparse, hts, hlt]
        · simp [elevenlabsWebhook, hb, hsig, hparse, hts, hlt, hhash]
      · simp [elevenlabsWebhook, hb]
    · intro hb
      by_cases hlt : t < nowSec - SIGNATURE_TOLERANCE_MINUTES * 60
      · simp [elevenlabsWebhook, hb, hsig, hparse, hts, hlt, WebhookOutcome.isUnauthorized]
      · simp [elevenlabsWebhook, hb, hsig, hparse, hts, hlt, hhash, WebhookOutcome.isUnauthorized]

/-- A mock HMAC collaborator for the witness. -/
def exHmac (s m : String) : String := s ++ "#" ++ m

/-- A stale but otherwise well-formed webhook request. -/
def exStaleReq : WebhookRequest :=
  { bodyOk := true, rawBody := "{}", signature := some "t=100,v0=deadbeef",
    msgType := some "post_call_transcription" }

/-- Witness for C5: at `now = 2000s` a request stamped `t = 100s`
(over 30 minutes old) is rejected with 401 and is not processed. -/
theorem webhook_signature_rejection_witness :
    (2000 : Int) - 100 > 30 * 60 ∧
    elevenlabsWebhook exHmac 2000 (some "sec") exStaleReq ≠ .processed ∧
    elevenlabsWebhook exHmac 2000 (some "sec") exStaleReq =
      .unauthorized "Timestamp validation failed" :=
  ⟨by norm_num,
   ((webhook_signature_rejection exHmac 2000 "sec" exStaleReq "t=100,v0=deadbeef"
      "100" "deadbeef" 100 rfl (by decide) (by decide)).1 (by norm_num)).1,
   ((webhook_signature_rejection exHmac 2000 "sec" exStaleReq "t=100,v0=deadbeef"
      "100" "deadbeef" 100 rfl (by decide) (by decide)).1 (by norm_num)).2 rfl⟩

/-! ## Intake endpoint: critical slot checks and enqueue
(`POST /outgoing/outbound-call`, src/outgoing-call.js lines 335–766) -/

/-- A slot as returned by the CRM free-slots fetch after the handler's
per-item parse: `datetime` is the parsed instant (`none` when
`new Date(...)` is invalid), `userId` the per-slot rep when present. -/
structure RawSlot where
  datetime : Option Int
  userId : Option String
deriving DecidableEq, Repr

/-- Outcome of the slot-fetch `try` block of the intake handler. -/
inductive FetchOutcome where
  | exn                         -- the fetch threw (caught at line 646)
  | nullResult                  -- fetch returned `null` (API-error sentinel)
  | ok (slots : List RawSlot)   -- fetch returned an array
deriving DecidableEq, Repr

/-- The fields the intake handler carries into the `call_queue` insert. -/
structure IntakeCtx where
  contactId : Option String
  phone : Option String
  firstName : Option String
  fullName : Option String
  email : Option String
  service : Option String
  province : Option String
  signedUrl : Option String
  now : Int
deriving DecidableEq, Repr

/-- The `call_queue` row the intake endpoint inserts (lines 714–720):
`retry_stage = 0`, status `pending`, `scheduled_at = now`,
`first_attempt_timestamp = now`. -/
def intakeQueueRow (ctx : IntakeCtx) (slotsText : String) : QueueRow :=
  { contact_id := ctx.contactId, phone_number := ctx.phone,
    first_name := ctx.firstName, full_name := ctx.fullName,
    email := ctx.email, service := ctx.service, province := ctx.province,
    retry_stage := 0, status := "pending", scheduled_at := ctx.now,
    available_slots_text := slotsText, initial_signed_url := ctx.signedUrl,
    first_attempt_timestamp := ctx.now }

/-- Terminal behaviour of the slot phase: `critical500` is the
`reply.code(500).send({ …, critical: true })` response preceded by the
fatal operator notification — it inserts nothing; `enqueued` is the
`call_queue` insert followed by the 202 reply. -/
inductive IntakeResult where
  | critical500
  | enqueued (row : QueueRow)
deriving DecidableEq, Repr

/-- The slot-fetch / critical-check / enqueue phase of the intake handler
(src/outgoing-call.js lines 497–720), for a request that passed validation
with a token and a calendar configured.  `reps` is `targetSalesReps` (as
ghl user ids), `rendered` the §4.4 display string produced by the
formatter when at least one fetched slot parses (its construction is
modelled separately with the slot-display development). -/
def intakeSlotPhase (ctx : IntakeCtx) (reps : List String) (isAbrupt : Bool)
    (outcome : FetchOutcome) (rendered : String) : IntakeResult :=
  match outcome with
  | .exn =>
    -- `formattedSlotsString = "Errore durante il controllo degli slot."`;
    -- the catch block returns 500 when reps exist on a non-abrupt request
    if reps.length > 0 ∧ ¬isAbrupt then .critical500
    else .enqueued (intakeQueueRow ctx "Errore durante il controllo degli slot.")
  | .nullResult =>
    -- `formattedSlotsString = "Errore nel recupero degli slot GHL."`, and
    -- `allSlots === null` makes `hasSlotError` true in the post-check
    if reps.length > 0 ∧ ¬isAbrupt then .critical500
    else .enqueued (intakeQueueRow ctx "Errore nel recupero degli slot GHL.")
  | .ok slots =>
    let totalSlotsCount := (slots.filter (fun s => s.datetime.isSome)).length
    let formatted :=
      if slots.length > 0 then
        if totalSlotsCount > 0 then rendered
        else "Nessuno slot disponibile nell'intervallo richiesto (dopo elaborazione)."
      else "Nessuno slot disponibile nell'intervallo richiesto (vuoto o non valido)."
    let hasSlotError := strIncludes formatted "Errore"
    let hasNoSlots := strIncludes formatted "Nessuno slot disponibile" ∨ slots.length = 0
    if reps.length > 0 ∧ ¬isAbrupt ∧ (hasSlotError ∨ hasNoSlots) then .critical500
    else .enqueued (intakeQueueRow ctx formatted)

/-- **C6.** For every intake request that is not an abrupt-ending retry and
for which the router returned at least one sales rep, if the slot fetch
threw, returned the API-error sentinel (`null`), or returned an empty slot
set, the endpoint emits the fatal notification and replies 500 with
`critical: true`, and no `call_queue` row is inserted for the request. -/
theorem intake_critical_on_slot_failure (ctx : IntakeCtx) (reps : List String)
    (outcome : FetchOutcome) (rendered : String)
    (hreps : reps ≠ [])
    (hout : outcome = .exn ∨ outcome = .nullResult ∨ outcome = .ok []) :
    intakeSlotPhase ctx reps false outcome rendered = .critical500 := by
  have hlen : reps.length > 0 := List.length_pos.mpr hreps
  rcases hout with h | h | h <;> subst h <;> simp [intakeSlotPhase, hlen]

/-- A concrete intake request context. -/
def exCtx : IntakeCtx :=
  { contactId := some "K1", phone := some "+390612345678",
    firstName := some "Mario", fullName := some "Mario Rossi",
    email := some "m@example.com", service := some "Infissi",
    province := some "RM", signedUrl := some "wss://example/signed",
    now := 1000 }

/-- Witness for C6: with one rep and an empty slot set (and likewise a
thrown fetch), the request is rejected critically. -/
theorem intake_critical_on_slot_failure_witness :
    intakeSlotPhase exCtx ["U1"] false (.ok []) "unused" = .critical500 ∧
    intakeSlotPhase exCtx ["U1"] false .exn "unused" = .critical500 :=
  ⟨intake_critical_on_slot_failure exCtx ["U1"] (.ok []) "unused"
     (by decide) (Or.inr (Or.inr rfl)),
   intake_critical_on_slot_failure exCtx ["U1"] .exn "unused"
     (by decide) (Or.inl rfl)⟩

/-! ## Booking fallback: alternatives from the first two available days
(`POST /bookAppointment`, ghl routes, `findAndFormatAlternativesForTwoDays`) -/

/-- A slot as delivered by the CRM free-slots fetch: either a bare ISO
string or a `{datetime, userId}` object; `datetime` is the parsed instant
(`none` when `new Date(...)` is invalid). -/
inductive GhlSlot where
  | str (datetime : Option Int)
  | obj (datetime : Option Int) (userId : Option String)
deriving DecidableEq, Repr

/-- The route's normalisation: a bare string becomes an object with
`userId: null`. -/
def normalizeSlot : GhlSlot → RawSlot
  | .str d => ⟨d, none⟩
  | .obj d u => ⟨d, u⟩

/-- The UTC calendar day of an instant (`toISOString().split('T')[0]`),
as days since the epoch; `Int` division is floor division. -/
def utcDateKey (t : Int) : Int := t / dayMs

/-- The comparator `(a, b) => a.date - b.date` of the alternatives sort. -/
def slotLe (a b : Int × Option String) : Bool := a.1 ≤ b.1

/-- The free-slots search window of the fallback: UTC midnight of the
failed slot's day to 7 days later (`setUTCHours(0,0,0,0)`,
`setUTCDate(+7)`). -/
def searchWindow (t0 : Int) : Int × Int :=
  let start := t0 - t0 % dayMs
  (start, start + 7 * dayMs)

/-- `allSlotDates` of the fallback: normalise the response, keep the slots
whose datetime parses and is `≥ t0`, as `(instant, userId)` pairs. -/
def eligiblePairs (rs : List GhlSlot) (t0 : Int) : List (Int × Option String) :=
  ((rs.map normalizeSlot).filterMap fun s => s.datetime.map fun d => (d, s.userId)).filter
    fun p => p.1 ≥ t0

/-- `allSlotDates` after the chronological `sort((a, b) => a.date - b.date)`. -/
def sortedPairs (rs : List GhlSlot) (t0 : Int) : List (Int × Option String) :=
  (eligiblePairs rs t0).mergeSort slotLe

/-- The distinct UTC dates of the sorted slots, in first-encounter order
(`Object.keys(slotsByUTCDate)`). -/
def sortedKeys (rs : List GhlSlot) (t0 : Int) : List Int :=
  ((sortedPairs rs t0).map fun p => utcDateKey p.1).dedup

/-- `findAndFormatAlternativesForTwoDays` (ghl routes, lines 889–963),
given the free-slots response `raw` for the 7-day window and the originally
requested instant `t0`: normalise, drop invalid and pre-`t0` slots, sort
chronologically, group by UTC date (the bucket of a date key is the
in-order sublist of sorted slots on that date), sort the date keys, and
concatenate the buckets of the first two available UTC dates. -/
def findAlternatives (raw : Option (List GhlSlot)) (t0 : Int) : List RawSlot :=
  match raw with
  | none => []
  | some rs =>
    if rs.isEmpty then []
    else if (sortedPairs rs t0).isEmpty then []
    else
      let availableUTCDates := (sortedKeys rs t0).mergeSort fun a b => decide (a ≤ b)
      ((availableUTCDates.take 2).flatMap fun k =>
          (sortedPairs rs t0).filter fun p => utcDateKey p.1 = k).map
        fun p => ⟨some p.1, p.2⟩

/-- The alternatives as the claim words them: the valid slots `≥ t0`,
sorted chronologically, restricted to the first two distinct UTC dates
present. -/
def claimedAlternatives (raw : Option (List GhlSlot)) (t0 : Int) : List RawSlot :=
  match raw with
  | none => []
  | some rs =>
    ((sortedPairs rs t0).filter
        fun p => utcDateKey p.1 ∈ (sortedKeys rs t0).take 2).map
      fun p => ⟨some p.1, p.2⟩

/-- The `/bookAppointment` reply once the CRM booking has failed: 200 with
`booking_failed_alternatives_available` when alternatives exist, 409 with
`booking_failed_no_alternatives` otherwise. -/
def bookingFailureReply (alternatives : List RawSlot) : Nat × String :=
  if alternatives.length > 0 then (200, "booking_failed_alternatives_available")
  else (409, "booking_failed_no_alternatives")

/-- `sortedPairs` is sorted by instant. -/
lemma sortedPairs_pairwise (rs : List GhlSlot) (t0 : Int) :
    (sortedPairs rs t0).Pairwise fun a b => slotLe a b = true :=
  List.sorted_mergeSort
    (fun a b c h1 h2 => by simp only [slotLe, decide_eq_true_eq] at *; omega)
    (fun a b => by simp only [slotLe, Bool.or_eq_true, decide_eq_true_eq]; omega)
    (eligiblePairs rs t0)

/-- Along the sorted slots, the UTC date keys are monotone. -/
lemma sortedPairs_keys_pairwise (rs : List GhlSlot) (t0 : Int) :
    (sortedPairs rs t0).Pairwise fun a b => utcDateKey a.1 ≤ utcDateKey b.1 :=
  (sortedPairs_pairwise rs t0).imp fun h => by
    simp only [slotLe, decide_eq_true_eq] at h
    exact Int.ediv_le_ediv (by norm_num [dayMs]) h

/-- The deduplicated date keys are sorted. -/
lemma sortedKeys_sorted (rs : List GhlSlot) (t0 : Int) :
    (sortedKeys rs t0).Sorted (· ≤ ·) :=
  List.Pairwise.sublist (List.dedup_sublist _)
    (List.pairwise_map.mpr (sortedPairs_keys_pairwise rs t0))

/-- The deduplicated date keys are strictly sorted. -/
lemma sortedKeys_strict (rs : List GhlSlot) (t0 : Int) :
    (sortedKeys rs t0).Pairwise (· < ·) :=
  ((sortedKeys_sorted rs t0).and (List.nodup_dedup _)).imp
    fun h => lt_of_le_of_ne h.1 h.2

/-- Sorting the already-sorted date keys is the identity. -/
lemma sortedKeys_mergeSort (rs : List GhlSlot) (t0 : Int) :
    ((sortedKeys rs t0).mergeSort fun a b => decide (a ≤ b)) = sortedKeys rs t0 :=
  List.mergeSort_eq_self (sortedKeys_sorted rs t0)

/-- On a list whose date keys are monotone, filtering for either of two
ordered keys is the bucket of the first followed by the bucket of the
second. -/
lemma filter_two_keys_split (l : List (Int × Option String)) (k1 k2 : Int)
    (hl : l.Pairwise fun a b => utcDateKey a.1 ≤ utcDateKey b.1) (hk : k1 < k2) :
    (l.filter fun p => utcDateKey p.1 = k1 ∨ utcDateKey p.1 = k2) =
      (l.filter fun p => utcDateKey p.1 = k1) ++
        (l.filter fun p => utcDateKey p.1 = k2) := by
  simp only [Bool.decide_or]
  induction l with
  | nil => rfl
  | cons x xs ih =>
    obtain ⟨hx, hxs⟩ := List.pairwise_cons.mp hl
    have ih' := ih hxs
    by_cases h1 : utcDateKey x.1 = k1
    · have h2 : utcDateKey x.1 ≠ k2 := by omega
      simp [List.filter_cons, h1, h2, hk.ne, hk.ne', ih']
    · by_cases h2 : utcDateKey x.1 = k2
      · have hxs1 : (xs.filter fun p => decide (utcDateKey p.1 = k1)) = [] := by
          rw [List.filter_eq_nil_iff]
          intro y hy
          have := hx y hy
          simp only [decide_eq_true_eq]
          omega
        have hor : (xs.filter fun p =>
              decide (utcDateKey p.1 = k1) || decide (utcDateKey p.1 = k2)) =
            xs.filter fun p => decide (utcDateKey p.1 = k2) := by
          refine List.filter_congr fun y hy => ?_
          have := hx y hy
          have hne : utcDateKey y.1 ≠ k1 := by omega
          simp [hne]
        simp [List.filter_cons, h1, h2, hk.ne', hxs1, hor]
      · simp [List.filter_cons, h1, h2, ih']

/-- The bucket concatenation over the first two sorted date keys equals the
filter by membership in those keys. -/
lemma buckets_eq_filter (rs : List GhlSlot) (t0 : Int) :
    ((sortedKeys rs t0).take 2).flatMap
        (fun k => (sortedPairs rs t0).filter fun p => utcDateKey p.1 = k) =
      (sortedPairs rs t0).filter
        fun p => utcDateKey p.1 ∈ (sortedKeys rs t0).take 2 := by
  rcases hK : sortedKeys rs t0 with _ | ⟨k1, ks⟩
  · simp
  · rcases ks with _ | ⟨k2, rest⟩
    · simp only [List.take, List.flatMap_cons, List.flatMap_nil, List.append_nil]
      refine (List.filter_congr fun p _ => ?_).symm
      simp
    · have hk12 : k1 < k2 := by
        have := sortedKeys_strict rs t0
        rw [hK] at this
        exact (List.pairwise_cons.mp this).1 k2 (by simp)
      simp only [List.take, List.flatMap_cons, List.flatMap_nil, List.append_nil]
      rw [← filter_two_keys_split _ k1 k2 (sortedPairs_keys_pairwise rs t0) hk12]
      refine (List.filter_congr fun p _ => ?_).symm
      simp

/-- **C7.** For every `/bookAppointment` request whose CRM booking fails,
the returned alternatives are exactly the valid slots of the free-slots
window — which starts at UTC midnight of the failed date and ends 7 days
later — that are `≥` the originally requested UTC instant, sorted
chronologically and restricted to the first two distinct UTC dates present;
the endpoint replies 200 `booking_failed_alternatives_available` when this
list is non-empty and 409 `booking_failed_no_alternatives` when it is
empty. -/
theorem booking_alternatives_two_days (raw : Option (List GhlSlot)) (t0 : Int) :
    findAlternatives raw t0 = claimedAlternatives raw t0 ∧
    searchWindow t0 = (dayMs * utcDateKey t0, dayMs * utcDateKey t0 + 7 * dayMs) ∧
    (findAlternatives raw t0 ≠ [] →
      bookingFailureReply (findAlternatives raw t0) =
        (200, "booking_failed_alternatives_available")) ∧
    (findAlternatives raw t0 = [] →
      bookingFailureReply (findAlternatives raw t0) =
        (409, "booking_failed_no_alternatives")) := by
  refine ⟨?_, ?_, fun hne => ?_, fun he => ?_⟩
  · rcases raw with _ | rs
    · rfl
    · by_cases hemp : rs.isEmpty
      · have h0 : rs = [] := by simpa using hemp
        subst h0
        simp [findAlternatives, claimedAlternatives, sortedPairs, eligiblePairs]
      · by_cases hs : (sortedPairs rs t0).isEmpty
        · have h0 : sortedPairs rs t0 = [] := by simpa using hs
          simp [findAlternatives, claimedAlternatives, hemp, hs, h0]
        · simp only [findAlternatives, claimedAlternatives, hemp, hs,
            Bool.false_eq_true, if_false]
          rw [sortedKeys_mergeSort, buckets_eq_filter]
  · simp only [searchWindow, utcDateKey, Prod.mk.injEq, dayMs]
    omega
  · simp [bookingFailureReply, List.length_pos, hne]
  · simp [bookingFailureReply, he]

/-- A concrete free-slots response: one valid slot on each of three UTC
days, one pre-`t0` slot and one invalid slot. -/
def exRawSlots : List GhlSlot :=
  [ .obj (some (2 * dayMs + 100)) (some "U2"),
    .str (some (dayMs + 50)),
    .obj none (some "U3"),
    .str (some 10),
    .obj (some (dayMs + 70)) (some "U1") ]

unseal List.merge List.mergeSort in
/-- Witness for C7 at a concrete response: the result keeps the two slots
of day 1 and the slot of day 2, chronologically, and the reply is the
200 alternatives reply. -/
theorem booking_alternatives_two_days_witness :
    findAlternatives (some exRawSlots) 20 = claimedAlternatives (some exRawSlots) 20 ∧
    bookingFailureReply (findAlternatives (some exRawSlots) 20)
      = (200, "booking_failed_alternatives_available") :=
  ⟨(booking_alternatives_two_days (some exRawSlots) 20).1,
   (booking_alternatives_two_days (some exRawSlots) 20).2.2.1 (by decide)⟩

/-! ## Province extraction (utils, `extractProvinceFromAddress`) -/

/-- A JavaScript `\w` word character: `[A-Za-z0-9_]`. -/
def isWordChar (c : Char) : Bool := c.isAlphanum || c = '_'

/-- `[A-Z]`. -/
def isUpperAZ (c : Char) : Bool := 'A' ≤ c ∧ c ≤ 'Z'

/-- The boundary test before a match: start of string or a preceding
non-word character. -/
def boundaryBefore (prev : Option Char) : Bool :=
  match prev with
  | none => true
  | some p => !isWordChar p

/-- The boundary test after a match: end of string or a following
non-word character. -/
def boundaryAfter (rest : List Char) : Bool :=
  match rest with
  | [] => true
  | r :: _ => !isWordChar r

/-- All matches of `/\b([A-Z]{2})\b/g`: the left-to-right, non-overlapping
two-uppercase-letter tokens delimited by word boundaries.  `prev` is the
character before the current scan position. -/
def scanTokens (prev : Option Char) : List Char → List (List Char)
  | c1 :: c2 :: rest =>
    if boundaryBefore prev && isUpperAZ c1 && isUpperAZ c2 && boundaryAfter rest then
      [c1, c2] :: scanTokens (some c2) rest
    else
      scanTokens (some c1) (c2 :: rest)
  | _ => []

/-- All matches of `/\b(\d{5})\b/g`: the left-to-right, non-overlapping
five-digit tokens delimited by word boundaries. -/
def scanZipTokens (prev : Option Char) : List Char → List (List Char)
  | c1 :: c2 :: c3 :: c4 :: c5 :: rest =>
    if boundaryBefore prev && c1.isDigit && c2.isDigit && c3.isDigit &&
        c4.isDigit && c5.isDigit && boundaryAfter rest then
      [c1, c2, c3, c4, c5] :: scanZipTokens (some c5) rest
    else
      scanZipTokens (some c1) (c2 :: c3 :: c4 :: c5 :: rest)
  | _ => []

/-- The fixed Italian province-code list of `extractDirectProvinceCode`
(the identical list is used to validate the LLM fallback). -/
def validProvinceCodes : List String :=
  ["AG", "AL", "AN", "AO", "AR", "AP", "AT", "AV", "BA", "BT", "BL", "BN",
   "BG", "BI", "BO", "BZ", "BS", "BR", "CA", "CL", "CB", "CI", "CE", "CT",
   "CZ", "CH", "CO", "CS", "CR", "KR", "CN", "EN", "FM", "FE", "FI", "FG",
   "FC", "FR", "GE", "GO", "GR", "IM", "IS", "SP", "AQ", "LT", "LE", "LC",
   "LI", "LO", "LU", "MC", "MN", "MS", "MT", "VS", "ME", "MI", "MO", "MB",
   "NA", "NO", "NU", "OG", "OT", "OR", "PD", "PA", "PR", "PV", "PG", "PU",
   "PE", "PC", "PI", "PT", "PN", "PZ", "PO", "RG", "RA", "RC", "RE", "RI",
   "RN", "RM", "RO", "SA", "SS", "SV", "SI", "SO", "SR", "TA", "TE", "TR",
   "TO", "TP", "TN", "TV", "TS", "UD", "VA", "VE", "VB", "VC", "VR", "VV",
   "VI", "VT"]

/-- `extractDirectProvinceCode`: uppercase the address, take every
word-bounded two-letter token, and return the first that is a valid
province code. -/
def extractDirectProvinceCode (address : String) : Option String :=
  let addressUpper := address.data.map Char.toUpper
  ((scanTokens none addressUpper).find?
    fun tk => validProvinceCodes.contains (String.mk tk)).map String.mk

/-- `s.trim()`. -/
def jsTrim (s : String) : String :=
  ⟨((s.data.dropWhile Char.isWhitespace).reverse.dropWhile Char.isWhitespace).reverse⟩

/-- The row-processing loop of `fetchZipCodeProvinceMapping` (ZIP
validation, utils lines 894–915): each `(CAP, PROVINCIA)` row is stored
iff the trimmed CAP is exactly five digits and the trimmed uppercased
PROVINCIA has length two — membership in the province-code set is *not*
checked. -/
def zipMappingStep (cache : String → Option String) (row : String × String) :
    String → Option String :=
  let cleanCap := jsTrim row.1
  let cleanProvincia : String := ⟨(jsTrim row.2).data.map Char.toUpper⟩
  if (cleanCap.data.length = 5 ∧ cleanCap.data.all Char.isDigit) ∧
      cleanProvincia.data.length = 2 then
    fun k => if k = cleanCap then some cleanProvincia else cache k
  else cache

/-- The ZIP→province cache built by `fetchZipCodeProvinceMapping` from the
sheet's `(CAP, PROVINCIA)` rows. -/
def buildZipMapping (rows : List (String × String)) : String → Option String :=
  rows.foldl zipMappingStep (fun _ => none)

/-- `extractProvinceFromZipCode`: look every word-bounded five-digit token
of the address up in the ZIP→province mapping, returning the first hit. -/
def extractProvinceFromZipCode (address : String)
    (zipMapping : String → Option String) : Option String :=
  (scanZipTokens none address.data).findSome? fun z => zipMapping (String.mk z)

/-- `extractProvinceViaGemini`, given the model's raw text response
(`none` when no API key is configured or the call failed): trim,
uppercase, take the first word-bounded two-letter token and validate it
against the province-code set. -/
def extractProvinceViaGemini (response : Option String) : Option String :=
  match response with
  | none => none
  | some text =>
    let up := (jsTrim text).data.map Char.toUpper
    match (scanTokens none up).head? with
    | some tk =>
      if validProvinceCodes.contains (String.mk tk) then some (String.mk tk) else none
    | none => none

/-- The placeholder short-circuit of `extractProvinceFromAddress` (utils
lines 987–1000).  The source tests five case-insensitive patterns; the
first two — `/follow-up call.*(address tbd|address to be determined)/i`
and `/follow-up call\s*-\s*address tbd/i` — match only when the address
also contains `address tbd` or `to be determined`, so the disjunction of
all five reduces to the three plain substring tests below.  A bare
`follow-up call` is *not* among the patterns. -/
def placeholderMatch (address : String) : Bool :=
  let lower := address.data.map Char.toLower
  containsSub "address tbd".data lower ||
  containsSub "to be determined".data lower ||
  containsSub "placeholder".data lower

/-- `extractProvinceFromAddress` (utils lines 979–1029): placeholder
short-circuit, then strategy 1 (direct code), strategy 2 (ZIP lookup
against the sheet-built mapping), strategy 3 (LLM fallback). -/
def extractProvinceFromAddress (address : Option String)
    (zipMapping : String → Option String) (gemini : Option String) :
    Option String :=
  match address with
  | none => none
  | some a =>
    if a = "" then none
    else if placeholderMatch a then none
    else
      match extractDirectProvinceCode a with
      | some code => some code
      | none =>
        match extractProvinceFromZipCode a zipMapping with
        | some p => some p
        | none => extractProvinceViaGemini gemini

/-- Every `\b[A-Z]{2}\b` token has two characters. -/
lemma scanTokens_length (prev : Option Char) (l : List Char) :
    ∀ tk ∈ scanTokens prev l, tk.length = 2 := by
  induction prev, l using scanTokens.induct with
  | case1 prev c1 c2 rest h ih =>
    intro tk htk
    rw [scanTokens, if_pos h] at htk
    rcases List.mem_cons.mp htk with rfl | hmem
    · rfl
    · exact ih tk hmem
  | case2 prev c1 c2 rest h ih =>
    intro tk htk
    rw [scanTokens, if_neg h] at htk
    exact ih tk htk
  | case3 prev l h =>
    intro tk htk
    simp [scanTokens] at htk

/-- Folding the sheet rows preserves the invariant that every stored
PROVINCIA value has two characters. -/
lemma zipMapping_fold_invariant (rows : List (String × String)) :
    ∀ (cache : String → Option String),
      (∀ k v, cache k = some v → v.data.length = 2) →
      ∀ k v, rows.foldl zipMappingStep cache k = some v → v.data.length = 2 := by
  induction rows with
  | nil => intro cache hc k v hv; exact hc k v hv
  | cons r rs ih =>
    intro cache hc k v hv
    rw [List.foldl_cons] at hv
    refine ih (zipMappingStep cache r) ?_ k v hv
    intro k' v' hv'
    unfold zipMappingStep at hv'
    split at hv'
    · rename_i hvalid
      dsimp only at hv'
      split at hv'
      · have hs := Option.some_inj.mp hv'
        subst hs
        simpa using hvalid.2
      · exact hc k' v' hv'
    · exact hc k' v' hv'

/-- Every value held by the sheet-built ZIP mapping has two characters
(the only validation the loop applies to a PROVINCIA cell). -/
lemma buildZipMapping_value_length (rows : List (String × String))
    (z p : String) (h : buildZipMapping rows z = some p) : p.data.length = 2 :=
  zipMapping_fold_invariant rows (fun _ => none) (by simp) z p h

/-- A code returned by the direct strategy is a valid province code of two
characters. -/
lemma extractDirectProvinceCode_valid (a : String) (c : String)
    (h : extractDirectProvinceCode a = some c) :
    validProvinceCodes.contains c = true ∧ c.data.length = 2 := by
  unfold extractDirectProvinceCode at h
  obtain ⟨tk, htk, rfl⟩ := Option.map_eq_some'.mp h
  refine ⟨by simpa using List.find?_some htk, ?_⟩
  exact scanTokens_length none _ tk (List.mem_of_find?_eq_some htk)

/-- A code returned by the LLM fallback is a valid province code of two
characters. -/
lemma extractProvinceViaGemini_valid (g : Option String) (c : String)
    (h : extractProvinceViaGemini g = some c) :
    validProvinceCodes.contains c = true ∧ c.data.length = 2 := by
  rcases g with _ | text
  · exact absurd h (by simp [extractProvinceViaGemini])
  · simp only [extractProvinceViaGemini] at h
    rcases hh : ((scanTokens none ((jsTrim text).data.map Char.toUpper)).head?)
      with _ | tk
    · rw [hh] at h; exact absurd h (by simp)
    · rw [hh] at h
      dsimp only at h
      by_cases hmem : validProvinceCodes.contains (String.mk tk) = true
      · rw [if_pos hmem] at h
        have hc := Option.some_inj.mp h
        subst hc
        refine ⟨hmem, ?_⟩
        refine scanTokens_length none ((jsTrim text).data.map Char.toUpper) tk ?_
        exact List.mem_of_mem_head? (by rw [hh]; rfl)
      · rw [if_neg hmem] at h
        exact absurd h (by simp)

/-- A province delivered by the ZIP strategy comes from the sheet-built
mapping. -/
lemma extractProvinceFromZipCode_mem (a : String)
    (mapping : String → Option String) (p : String)
    (h : extractProvinceFromZipCode a mapping = some p) :
    ∃ z, mapping z = some p := by
  unfold extractProvinceFromZipCode at h
  obtain ⟨z, _, hmz⟩ := List.exists_of_findSome?_eq_some h
  exact ⟨String.mk z, hmz⟩

/-- Counterexample to C8 as stated.  (1) With a sheet row mapping CAP
`00100` to the two-letter non-province value `xx`, extraction on
`"Centocelle 00100"` returns `"XX"`, which is not in the 110-element
province set — the ZIP strategy validates only the length of the sheet
value.  (2) The address `"Follow-up call, RM area"` matches
`/follow-up call/i`, yet extraction does not short-circuit: strategy 1
runs and returns `"RM"`. -/
theorem province_extraction_counterexample :
    extractProvinceFromAddress (some "Centocelle 00100")
      (buildZipMapping [("00100", "xx")]) none = some "XX" ∧
    validProvinceCodes.contains "XX" = false ∧
    containsSub "follow-up call".data
      ("Follow-up call, RM area".data.map Char.toLower) = true ∧
    extractProvinceFromAddress (some "Follow-up call, RM area")
      (fun _ => none) none = some "RM" :=
  ⟨by decide, by decide, by decide, by decide⟩

/-- **C8 (amended).** The province-code set has 110 elements, and for every
address, ZIP sheet content and LLM response, a non-null extraction result
is a two-letter code that is either a member of the 110-element set (the
direct and LLM strategies guarantee membership) or a value supplied by the
external ZIP→province sheet, which the code validates only for length; and
every address matching one of the code's placeholder patterns (all of
which require `address tbd`, `to be determined` or `placeholder`,
case-insensitively — a bare `follow-up call` is not among them)
short-circuits before any strategy runs, yielding the null/'unknown'
result. -/
theorem province_extraction_sound (a : String)
    (rows : List (String × String)) (gemini : Option String) :
    validProvinceCodes.length = 110 ∧
    (∀ p, extractProvinceFromAddress (some a) (buildZipMapping rows) gemini = some p →
      p.data.length = 2 ∧
        (validProvinceCodes.contains p = true ∨
          ∃ z, buildZipMapping rows z = some p)) ∧
    (placeholderMatch a = true →
      extractProvinceFromAddress (some a) (buildZipMapping rows) gemini = none) := by
  refine ⟨by decide, fun p hp => ?_, fun hpl => ?_⟩
  · unfold extractProvinceFromAddress at hp
    dsimp only at hp
    by_cases ha : a = ""
    · rw [if_pos ha] at hp
      exact absurd hp (by simp)
    · rw [if_neg ha] at hp
      by_cases hplc : placeholderMatch a = true
      · rw [if_pos hplc] at hp
        exact absurd hp (by simp)
      · rw [if_neg hplc] at hp
        rcases hd : extractDirectProvinceCode a with _ | code
        · rw [hd] at hp
          rcases hz : extractProvinceFromZipCode a (buildZipMapping rows)
            with _ | q
          · rw [hz] at hp
            obtain ⟨hmem, hlen⟩ := extractProvinceViaGemini_valid gemini p hp
            exact ⟨hlen, Or.inl hmem⟩
          · rw [hz] at hp
            rw [← Option.some_inj.mp hp]
            obtain ⟨z, hzz⟩ :=
              extractProvinceFromZipCode_mem a (buildZipMapping rows) q hz
            exact ⟨buildZipMapping_value_length rows z q hzz, Or.inr ⟨z, hzz⟩⟩
        · rw [hd] at hp
          rw [← Option.some_inj.mp hp]
          obtain ⟨hmem, hlen⟩ := extractDirectProvinceCode_valid a code hd
          exact ⟨hlen, Or.inl hmem⟩
  · unfold extractProvinceFromAddress
    dsimp only
    by_cases ha : a = ""
    · rw [if_pos ha]
    · rw [if_neg ha, if_pos hpl]

/-- Witness for the amended C8 at concrete inputs: a real address yields
the two-letter member `RM`, and a placeholder address yields the
null/'unknown' result. -/
theorem province_extraction_sound_witness :
    ("RM" : String).data.length = 2 ∧
    (validProvinceCodes.contains "RM" = true ∨
      ∃ z, buildZipMapping [] z = some "RM") ∧
    extractProvinceFromAddress (some "Address TBD") (buildZipMapping []) none
      = none :=
  ⟨((province_extraction_sound "Via Roma 1, 00100 Roma (RM)" [] none).2.1
      "RM" (by decide)).1,
   ((province_extraction_sound "Via Roma 1, 00100 Roma (RM)" [] none).2.1
      "RM" (by decide)).2,
   (province_extraction_sound "Address TBD" [] none).2.2 (by decide)⟩

/-! ## Slot display formats and the `book_appointment` rep-id recovery
(src/outgoing-call.js lines 497–636 and 1045–1124)

The formatter renders the fetched slots with `toLocaleDateString` /
`toLocaleTimeString` and groups them by Italian date (lines 498–534).
The rendered components are taken as input here — a date group carries the
weekday abbreviation, the `DD-MM-YYYY` date and the time entries in
display order — with hypotheses pinning their character classes; the three
display strategies (lines 539–627) and the media bridge's string parsing
(lines 1060–1110) are modelled on those components verbatim.  Note that
the formatter joins lines with the two-character sequence `\n` (backslash,
`n`), not with a newline character: the source template literals use
`'\\n'`. -/

/-- A `[a-zA-Z0-9]` character. -/
def isAlnumChar (c : Char) : Bool :=
  ('a' ≤ c ∧ c ≤ 'z') ∨ ('A' ≤ c ∧ c ≤ 'Z') ∨ c.isDigit

/-- A time entry of a date group: the rendered `HH:MM` text and the
per-slot rep id when the CRM supplied one. -/
structure TimeEntry where
  time : String
  userId : Option String
deriving DecidableEq, Repr

/-- A rendered date group of strategies 1 and 2: weekday abbreviation
(`Lun`), `DD-MM-YYYY` date, and the time entries in display order. -/
structure DateGroup where
  weekday : String
  date : String
  times : List TimeEntry
deriving DecidableEq, Repr

/-- A rendered per-rep date block of strategy 3. -/
structure RepDate where
  weekday : String
  date : String
  times : List String
deriving DecidableEq, Repr

/-- A rep section of strategy 3 (`userId` is the map key, with slots
lacking an id grouped under the literal `unknown`). -/
structure RepGroup where
  userId : String
  dates : List RepDate
deriving DecidableEq, Repr

/-- The short codes `['A', 'B', 'C']` of strategy 2. -/
def codes : List Char := ['A', 'B', 'C']

/-- `userIdMap[userId]`: the short code of a rep, by its index in the
`uniqueUserIds` enumeration (`codes[index]`). -/
def codeFor (uids : List String) (u : String) : Char :=
  codes.getD (uids.indexOf u) '?'

/-- `Array.prototype.join(sep)`. -/
def joinSep (sep : List Char) : List (List Char) → List Char
  | [] => []
  | [l] => l
  | l :: ls => l ++ sep ++ joinSep sep ls

/-- `formattedLines.join('\\n')`: lines joined with the two-character
sequence backslash-`n`. -/
def joinNL : List (List Char) → List Char := joinSep "\\n".data

/-- `times.join(', ')`. -/
def joinComma : List (List Char) → List Char := joinSep ", ".data

/-- The `header` of a date group: `"<Weekday> <DD-MM-YYYY>"`. -/
def dateHeader (weekday date : String) : List Char :=
  weekday.data ++ ' ' :: date.data

/-- A strategy-1 line: `"<header>: <t1>, <t2>, …"`. -/
def s1DateLine (g : DateGroup) : List Char :=
  dateHeader g.weekday g.date ++ ':' :: ' ' :: joinComma (g.times.map (·.time.data))

/-- Strategy 1 (single rep): the date lines followed by the
`\nSales Rep: <id>` trailer line. -/
def formatS1 (groups : List DateGroup) (uid : String) : List Char :=
  joinNL (groups.map s1DateLine ++ ["\\nSales Rep: ".data ++ uid.data])

/-- A strategy-2 time entry: `"<time>(<code>)"` when the slot carries a
rep id, the bare time otherwise. -/
def s2Entry (uids : List String) (e : TimeEntry) : List Char :=
  match e.userId with
  | some u => e.time.data ++ '(' :: codeFor uids u :: [')']
  | none => e.time.data

/-- A strategy-2 line: `"<header>: <entry1>, <entry2>, …"`. -/
def s2DateLine (uids : List String) (g : DateGroup) : List Char :=
  dateHeader g.weekday g.date ++ ':' :: ' ' :: joinComma (g.times.map (s2Entry uids))

/-- A strategy-2 legend entry: `"<code> = <id>"`. -/
def legendLine (j : Nat) (u : String) : List Char :=
  codes.getD j '?' :: ' ' :: '=' :: ' ' :: u.data

/-- Strategy 2 (two or three reps): suffixed date lines, the
`\nSales Reps:` header, and one legend entry per rep in enumeration
order. -/
def formatS2 (groups : List DateGroup) (uids : List String) : List Char :=
  joinNL (groups.map (s2DateLine uids) ++ ["\\nSales Reps:".data] ++
    (uids.enum.map fun ju => legendLine ju.1 ju.2))

/-- The lines of one strategy-3 rep section: `"\n<id>:"` then the
two-space-indented per-date lines. -/
def s3RepLines (r : RepGroup) : List (List Char) :=
  ("\\n".data ++ r.userId.data ++ [':']) ::
    r.dates.map fun d =>
      ' ' :: ' ' :: (dateHeader d.weekday d.date ++ ':' :: ' ' ::
        joinComma (d.times.map String.data))

/-- Strategy 3 (four or more reps): the concatenated rep sections. -/
def formatS3 (repsList : List RepGroup) : List Char :=
  joinNL (repsList.flatMap s3RepLines)

/-- The abbreviated-format test
`appointmentDate.match(/^(.+?)(\([A-C]\))$/)`: the date ends in `(A)`,
`(B)` or `(C)` with a non-empty, newline-free part before it.  Returns
the suffix letter and the stripped `cleanAppointmentDate`. -/
def abbrevMatch (adata : List Char) : Option (Char × List Char) :=
  match adata.reverse with
  | c3 :: l :: c1 :: restRev =>
    if c3 = ')' ∧ c1 = '(' ∧ (l = 'A' ∨ l = 'B' ∨ l = 'C') ∧ restRev ≠ [] ∧
        ¬restRev.contains '\n' ∧ ¬restRev.contains '\r' then
      some (l, restRev.reverse)
    else none
  | _ => none

/-- The legend lookup
`slotsText.match(new RegExp(`X = ([a-zA-Z0-9]+)`))`: the capture of the
first position where the four-character pattern `X = ` is followed by at
least one alphanumeric character; the capture is the maximal alphanumeric
run. -/
def findCapture (pat : List Char) : List Char → Option (List Char)
  | [] => none
  | c :: rest =>
    if pat.isPrefixOf (c :: rest) ∧
        ((c :: rest).drop pat.length).takeWhile isAlnumChar ≠ [] then
      some (((c :: rest).drop pat.length).takeWhile isAlnumChar)
    else findCapture pat rest

/-- `slotsText.match(/Sales Rep: ([a-zA-Z0-9]+)$/)`: the text ends with
`Sales Rep: ` followed by a non-empty alphanumeric run; the capture is
that run (the maximal alphanumeric suffix of the text). -/
def salesRepTrailer (text : List Char) : Option (List Char) :=
  let suffix := (text.reverse.takeWhile isAlnumChar).reverse
  if suffix ≠ [] ∧
      "Sales Rep: ".data.isSuffixOf (text.take (text.length - suffix.length)) then
    some suffix
  else none

/-- The tail of the strategy-3 section pattern after its leading `\n`:
`([a-zA-Z0-9]+):\s*\n[\s]*[A-Za-z]{3} \d{2}-\d{2}-\d{4}: [^\\n]*T[^\\n]*`,
matched greedily.  On every formatter output this is dead code: the
pattern's two `\n` escapes demand literal newline characters, and the
formatter emits none (its separators are the two-character `\n`
sequences). -/
def repSectionAt (timeOnly : List Char) (s : List Char) : Option (List Char) :=
  let uid := s.takeWhile isAlnumChar
  if uid = [] then none
  else
    match s.drop uid.length with
    | ':' :: s2 =>
      match s2.dropWhile Char.isWhitespace with
      | '\n' :: s4 =>
        let s5 := s4.dropWhile Char.isWhitespace
        let hdr := s5.take 3
        let line := s5.takeWhile fun c => c ≠ '\\' ∧ c ≠ 'n'
        if hdr.length = 3 ∧ hdr.all Char.isAlpha ∧
            (s5.drop 3).take 1 = [' '] ∧
            ((s5.drop 4).take 2).all Char.isDigit ∧ (s5.drop 6).take 1 = ['-'] ∧
            ((s5.drop 7).take 2).all Char.isDigit ∧ (s5.drop 9).take 1 = ['-'] ∧
            ((s5.drop 10).take 4).all Char.isDigit ∧
            (s5.drop 14).take 2 = [':', ' '] ∧
            containsSub timeOnly line then
          some uid
        else none
      | _ => none
    | _ => none

/-- The strategy-3 lookup: the first position of the text holding a
literal newline character at which `repSectionAt` matches. -/
def repSectionLookup (timeOnly : List Char) : List Char → Option (List Char)
  | [] => none
  | c :: rest =>
    if c = '\n' ∧ (repSectionAt timeOnly rest).isSome then repSectionAt timeOnly rest
    else repSectionLookup timeOnly rest

/-- `/^\d{2}-\d{2}-\d{4} /` stripping of the leading date from the chosen
slot, yielding `timeOnly`. -/
def stripLeadingDate (l : List Char) : List Char :=
  match l with
  | d1 :: d2 :: '-' :: m1 :: m2 :: '-' :: y1 :: y2 :: y3 :: y4 :: ' ' :: rest =>
    if d1.isDigit ∧ d2.isDigit ∧ m1.isDigit ∧ m2.isDigit ∧
        y1.isDigit ∧ y2.isDigit ∧ y3.isDigit ∧ y4.isDigit then rest
    else l
  | _ => l

/-- The rep-id recovery of the `book_appointment` function-call handler
(src/outgoing-call.js lines 1050–1110): the abbreviated-suffix legend
lookup, then — only when no id was found — the `Sales Rep:` trailer test
followed by the rep-grouped section regex, whose hit overrides the
trailer's. -/
def resolveUserId (appointmentDate : String) (slotsText : List Char) :
    Option String :=
  let adata := appointmentDate.data
  let abbrevM := abbrevMatch adata
  let userId0 : Option (List Char) :=
    match abbrevM with
    | some (l, _) => findCapture [l, ' ', '=', ' '] slotsText
    | none => none
  let cleanDate := match abbrevM with
    | some (_, cd) => cd
    | none => adata
  let userId1 : Option (List Char) :=
    match userId0 with
    | some u => some u
    | none =>
      let fromTrailer := salesRepTrailer slotsText
      let timeOnly := stripLeadingDate cleanDate
      match repSectionLookup timeOnly slotsText with
      | some u => some u
      | none => fromTrailer
  userId1.map String.mk

/-! ### Well-formedness of the rendered components -/

/-- A rep id as GoHighLevel issues them: non-empty and alphanumeric. -/
def wfUid (u : String) : Prop := u.data ≠ [] ∧ u.data.all isAlnumChar = true

/-- An `it-IT` weekday abbreviation (`Lun`, `Mar`, …): alphabetic, and
containing none of the uppercase short codes `A`, `B`, `C`. -/
def wfWeekday (w : String) : Prop :=
  w.data.all (fun c => c.isAlpha ∧ !codes.contains c) = true

/-- A rendered `DD-MM-YYYY` date: non-empty, digits and hyphens. -/
def wfDate (d : String) : Prop :=
  d.data ≠ [] ∧ d.data.all (fun c => c.isDigit || c = '-') = true

/-- A rendered `HH:MM` time. -/
def wfTime (t : String) : Prop :=
  ∃ a b c d, a.isDigit = true ∧ b.isDigit = true ∧ c.isDigit = true ∧
    d.isDigit = true ∧ t.data = [a, b, ':', c, d]

/-- Well-formedness of a date group. -/
def wfGroup (g : DateGroup) : Prop :=
  wfWeekday g.weekday ∧ wfDate g.date ∧ ∀ e ∈ g.times, wfTime e.time

/-- Well-formedness of a strategy-3 rep section. -/
def wfRepGroup (r : RepGroup) : Prop :=
  wfUid r.userId ∧
    ∀ d ∈ r.dates, wfWeekday d.weekday ∧ wfDate d.date ∧ ∀ t ∈ d.times, wfTime t

/-! ### Elementary character and list lemmas -/

/-- `takeWhile` over an append whose left part satisfies the predicate and
whose right part starts with a failing character. -/
lemma takeWhile_all_append (p : Char → Bool) (u v : List Char)
    (hu : u.all p = true) (hv : ∀ c, v.head? = some c → p c = false) :
    (u ++ v).takeWhile p = u := by
  induction u with
  | nil =>
    cases v with
    | nil => rfl
    | cons c cs => simp [List.takeWhile, hv c rfl]
  | cons a u' ih =>
    simp only [List.all_cons, Bool.and_eq_true] at hu
    simp [List.takeWhile, hu.1, ih hu.2]

/-- A character of a well-formed time is a digit or a colon. -/
lemma wfTime_chars {t : String} (h : wfTime t) :
    ∀ c ∈ t.data, c.isDigit = true ∨ c = ':' := by
  obtain ⟨a, b, c, d, ha, hb, hc, hd, he⟩ := h
  rw [he]
  intro x hx
  simp only [List.mem_cons, List.not_mem_nil, or_false] at hx
  rcases hx with rfl | rfl | rfl | rfl | rfl
  · exact Or.inl ha
  · exact Or.inl hb
  · exact Or.inr rfl
  · exact Or.inl hc
  · exact Or.inl hd

/-- The strategy-3 section search finds nothing in a text without a
literal newline character. -/
lemma repSectionLookup_none (t : List Char) (text : List Char)
    (h : ¬text.contains '\n') : repSectionLookup t text = none := by
  induction text with
  | nil => rfl
  | cons c rest ih =>
    simp only [List.contains_cons, Bool.or_eq_true, not_or] at h
    have hc : ¬(c = '\n') := by
      intro hh; exact h.1 (by simp [hh])
    rw [repSectionLookup, if_neg (by tauto)]
    exact ih h.2

/-- `joinSep` distributes over the append of two non-empty line lists. -/
lemma joinSep_append (sep : List Char) (A B : List (List Char))
    (hA : A ≠ []) (hB : B ≠ []) :
    joinSep sep (A ++ B) = joinSep sep A ++ sep ++ joinSep sep B := by
  induction A with
  | nil => exact absurd rfl hA
  | cons l A' ih =>
    cases A' with
    | nil =>
      cases B with
      | nil => exact absurd rfl hB
      | cons b B' => simp [joinSep]
    | cons l2 A'' =>
      have := ih (by simp)
      simp only [List.cons_append, joinSep, List.append_eq] at this ⊢
      rw [this]
      simp [List.append_assoc]

/-- `joinSep` of a list ending in a given line ends in that line. -/
lemma joinSep_concat (sep : List Char) (ls : List (List Char)) (L : List Char) :
    ∃ B, joinSep sep (ls ++ [L]) = B ++ L := by
  cases ls with
  | nil => exact ⟨[], rfl⟩
  | cons l ls' =>
    rw [joinSep_append sep (l :: ls') [L] (by simp) (by simp)]
    exact ⟨joinSep sep (l :: ls') ++ sep, by simp [joinSep]⟩

/-- `joinSep` of a cons either is the head line alone or appends the
separator and the joined tail. -/
lemma joinSep_cons (sep x : List Char) (B : List (List Char)) :
    joinSep sep (x :: B) = x ∨
      joinSep sep (x :: B) = x ++ (sep ++ joinSep sep B) := by
  cases B with
  | nil => exact Or.inl rfl
  | cons b B' => exact Or.inr (by simp [joinSep])

/-- A character of a `joinSep` comes from the separator or from a line. -/
lemma mem_joinSep (sep : List Char) (ls : List (List Char)) (c : Char)
    (hc : c ∈ joinSep sep ls) : c ∈ sep ∨ ∃ l ∈ ls, c ∈ l := by
  induction ls with
  | nil => simp [joinSep] at hc
  | cons l ls' ih =>
    cases ls' with
    | nil => exact Or.inr ⟨l, by simp, hc⟩
    | cons l2 ls'' =>
      simp only [joinSep, List.mem_append] at hc
      rcases hc with (hc | hc) | hc
      · exact Or.inr ⟨l, by simp, hc⟩
      · exact Or.inl hc
      · rcases ih hc with h | ⟨l', hl', hcl⟩
        · exact Or.inl h
        · exact Or.inr ⟨l', List.mem_cons_of_mem _ hl', hcl⟩

/-- `contains` is false for a non-member. -/
lemma contains_eq_false_of_not_mem {l : List Char} {c : Char} (h : c ∉ l) :
    l.contains c = false := by
  induction l with
  | nil => rfl
  | cons a l' ih =>
    simp only [List.mem_cons, not_or] at h
    simp only [List.contains_cons, Bool.or_eq_false_iff]
    exact ⟨by simpa using h.1, ih h.2⟩

/-- Position bounds and membership for `enumFrom` elements. -/
lemma mem_enumFrom_facts {α : Type} (l : List α) (n : Nat) (p : Nat × α)
    (h : p ∈ l.enumFrom n) : n ≤ p.1 ∧ p.1 < n + l.length ∧ p.2 ∈ l := by
  induction l generalizing n with
  | nil => simp [List.enumFrom] at h
  | cons a l' ih =>
    rw [List.enumFrom] at h
    rcases List.mem_cons.mp h with rfl | h
    · refine ⟨Nat.le_refl _, ?_, List.mem_cons_self _ _⟩
      simp only [List.length_cons]
      omega
    · obtain ⟨h1, h2, h3⟩ := ih _ h
      refine ⟨by omega, ?_, List.mem_cons_of_mem _ h3⟩
      simp only [List.length_cons] at h2 ⊢
      omega

/-- A short code drawn from `codes` by an in-range index is `A`, `B` or
`C`. -/
lemma codes_getD_lt_mem (j : Nat) (hj : j < 3) : codes.getD j '?' ∈ codes := by
  match j, hj with
  | 0, _ => exact List.mem_cons_self _ _
  | 1, _ => exact List.mem_cons_of_mem _ (List.mem_cons_self _ _)
  | 2, _ =>
    exact List.mem_cons_of_mem _ (List.mem_cons_of_mem _ (List.mem_cons_self _ _))

/-- Distinct in-range indices yield distinct short codes. -/
lemma codes_getD_ne (i j : Nat) (hi : i < 3) (hj : j < 3) (hne : i ≠ j) :
    codes.getD i '?' ≠ codes.getD j '?' := by
  interval_cases i <;> interval_cases j <;> simp_all [codes]

/-- A digit is alphanumeric. -/
lemma isAlnumChar_of_digit {c : Char} (h : c.isDigit = true) :
    isAlnumChar c = true := by
  simp [isAlnumChar, h]

/-- A member of a list not meeting a character class is distinct from any
member of `codes`. -/
lemma codes_not_mem_of (X : Char) (hX : X ∈ codes) (l : List Char)
    (h : ∀ c ∈ codes, c ∉ l) : X ∉ l := fun hm => h X hX hm

/-- A short code drawn from `codes` by any index is `A`, `B`, `C` or the
out-of-range default `?`. -/
lemma codes_getD_mem4 (j : Nat) : codes.getD j '?' ∈ ['A', 'B', 'C', '?'] := by
  match j with
  | 0 => decide
  | 1 => decide
  | 2 => decide
  | n + 3 => exact List.mem_cons_of_mem _ (List.mem_cons_of_mem _
      (List.mem_cons_of_mem _ (List.mem_cons_self _ _)))

/-! ### The formatter outputs contain no literal newline character -/

/-- A date header holds no newline. -/
lemma nl_not_mem_dateHeader (w d : String) (hw : wfWeekday w) (hd : wfDate d) :
    '\n' ∉ dateHeader w d := by
  intro h
  unfold dateHeader at h
  rcases List.mem_append.mp h with h | h
  · exact absurd (List.all_eq_true.mp hw _ h) (by decide)
  · rcases List.mem_cons.mp h with h | h
    · exact absurd h (by decide)
    · exact absurd (List.all_eq_true.mp hd.2 _ h) (by decide)

/-- A rendered time holds no newline. -/
lemma nl_not_mem_time {t : String} (ht : wfTime t) : '\n' ∉ t.data := by
  intro h
  rcases wfTime_chars ht _ h with h' | h'
  · exact absurd h' (by decide)
  · exact absurd h' (by decide)

/-- A rep id holds no newline. -/
lemma nl_not_mem_uid {u : String} (hu : wfUid u) : '\n' ∉ u.data := by
  intro h
  exact absurd (List.all_eq_true.mp hu.2 _ h) (by decide)

/-- A strategy-1 date line holds no newline. -/
lemma nl_not_mem_s1DateLine (g : DateGroup) (hg : wfGroup g) :
    '\n' ∉ s1DateLine g := by
  obtain ⟨hw, hd, ht⟩ := hg
  intro h
  unfold s1DateLine joinComma at h
  rcases List.mem_append.mp h with h | h
  · exact nl_not_mem_dateHeader _ _ hw hd h
  · rcases List.mem_cons.mp h with h | h
    · exact absurd h (by decide)
    rcases List.mem_cons.mp h with h | h
    · exact absurd h (by decide)
    rcases mem_joinSep _ _ _ h with h | ⟨l, hl, hcl⟩
    · exact absurd h (by decide)
    · obtain ⟨e, he, rfl⟩ := List.mem_map.mp hl
      exact nl_not_mem_time (ht e he) hcl

/-- A strategy-2 time entry holds no newline. -/
lemma nl_not_mem_s2Entry (uids : List String) (e : TimeEntry)
    (ht : wfTime e.time) : '\n' ∉ s2Entry uids e := by
  unfold s2Entry
  cases e.userId with
  | none => exact nl_not_mem_time ht
  | some u =>
    intro h
    rcases List.mem_append.mp h with h | h
    · exact nl_not_mem_time ht h
    · rcases List.mem_cons.mp h with h | h
      · exact absurd h (by decide)
      rcases List.mem_cons.mp h with h | h
      · have := codes_getD_mem4 (uids.indexOf u)
        rw [codeFor] at h
        rw [← h] at this
        exact absurd this (by decide)
      · rcases List.mem_cons.mp h with h | h
        · exact absurd h (by decide)
        · exact absurd h (by simp)

/-- A strategy-2 date line holds no newline. -/
lemma nl_not_mem_s2DateLine (uids : List String) (g : DateGroup)
    (hg : wfGroup g) : '\n' ∉ s2DateLine uids g := by
  obtain ⟨hw, hd, ht⟩ := hg
  intro h
  unfold s2DateLine joinComma at h
  rcases List.mem_append.mp h with h | h
  · exact nl_not_mem_dateHeader _ _ hw hd h
  · rcases List.mem_cons.mp h with h | h
    · exact absurd h (by decide)
    rcases List.mem_cons.mp h with h | h
    · exact absurd h (by decide)
    rcases mem_joinSep _ _ _ h with h | ⟨l, hl, hcl⟩
    · exact absurd h (by decide)
    · obtain ⟨e, he, rfl⟩ := List.mem_map.mp hl
      exact nl_not_mem_s2Entry uids e (ht e he) hcl

/-- A legend entry holds no newline. -/
lemma nl_not_mem_legendLine (j : Nat) (u : String) (hu : wfUid u) :
    '\n' ∉ legendLine j u := by
  intro h
  unfold legendLine at h
  rcases List.mem_cons.mp h with h | h
  · have := codes_getD_mem4 j
    rw [← h] at this
    exact absurd this (by decide)
  rcases List.mem_cons.mp h with h | h
  · exact absurd h (by decide)
  rcases List.mem_cons.mp h with h | h
  · exact absurd h (by decide)
  rcases List.mem_cons.mp h with h | h
  · exact absurd h (by decide)
  · exact nl_not_mem_uid hu h

/-- The strategy-1 output holds no newline. -/
lemma nl_not_mem_formatS1 (groups : List DateGroup) (uid : String)
    (hg : ∀ g ∈ groups, wfGroup g) (hu : wfUid uid) :
    '\n' ∉ formatS1 groups uid := by
  intro h
  unfold formatS1 joinNL at h
  rcases mem_joinSep _ _ _ h with h | ⟨l, hl, hcl⟩
  · exact absurd h (by decide)
  · rcases List.mem_append.mp hl with hl | hl
    · obtain ⟨g, hgm, rfl⟩ := List.mem_map.mp hl
      exact nl_not_mem_s1DateLine g (hg g hgm) hcl
    · rcases List.mem_cons.mp hl with rfl | hl
      · rcases List.mem_append.mp hcl with hc | hc
        · exact absurd hc (by decide)
        · exact nl_not_mem_uid hu hc
      · exact absurd hl (by simp)

/-- The strategy-2 output holds no newline. -/
lemma nl_not_mem_formatS2 (groups : List DateGroup) (uids : List String)
    (hg : ∀ g ∈ groups, wfGroup g) (hus : ∀ v ∈ uids, wfUid v) :
    '\n' ∉ formatS2 groups uids := by
  intro h
  unfold formatS2 joinNL at h
  rcases mem_joinSep _ _ _ h with h | ⟨l, hl, hcl⟩
  · exact absurd h (by decide)
  · rcases List.mem_append.mp hl with hl | hl
    · rcases List.mem_append.mp hl with hl | hl
      · obtain ⟨g, hgm, rfl⟩ := List.mem_map.mp hl
        exact nl_not_mem_s2DateLine uids g (hg g hgm) hcl
      · rcases List.mem_cons.mp hl with rfl | hl
        · exact absurd hcl (by decide)
        · exact absurd hl (by simp)
    · obtain ⟨ju, hju, rfl⟩ := List.mem_map.mp hl
      have := mem_enumFrom_facts uids 0 ju (by simpa [List.enum] using hju)
      exact nl_not_mem_legendLine ju.1 ju.2 (hus ju.2 this.2.2) hcl

/-- A strategy-3 section line holds no newline. -/
lemma nl_not_mem_s3Line (r : RepGroup) (hr : wfRepGroup r) :
    ∀ l ∈ s3RepLines r, '\n' ∉ l := by
  obtain ⟨hu, hd⟩ := hr
  intro l hl
  unfold s3RepLines at hl
  rcases List.mem_cons.mp hl with rfl | hl
  · intro h
    rcases List.mem_append.mp h with h | h
    · rcases List.mem_append.mp h with h | h
      · exact absurd h (by decide)
      · exact nl_not_mem_uid hu h
    · rcases List.mem_cons.mp h with h | h
      · exact absurd h (by decide)
      · exact absurd h (by simp)
  · obtain ⟨d, hdm, rfl⟩ := List.mem_map.mp hl
    obtain ⟨hw, hdd, ht⟩ := hd d hdm
    intro h
    rcases List.mem_cons.mp h with h | h
    · exact absurd h (by decide)
    rcases List.mem_cons.mp h with h | h
    · exact absurd h (by decide)
    rcases List.mem_append.mp h with h | h
    · exact nl_not_mem_dateHeader _ _ hw hdd h
    rcases List.mem_cons.mp h with h | h
    · exact absurd h (by decide)
    rcases List.mem_cons.mp h with h | h
    · exact absurd h (by decide)
    unfold joinComma at h
    rcases mem_joinSep _ _ _ h with h | ⟨tl, htl, hct⟩
    · exact absurd h (by decide)
    · obtain ⟨t, htm, rfl⟩ := List.mem_map.mp htl
      exact nl_not_mem_time (ht t htm) hct

/-- The strategy-3 output holds no newline. -/
lemma nl_not_mem_formatS3 (repsList : List RepGroup)
    (hr : ∀ r ∈ repsList, wfRepGroup r) : '\n' ∉ formatS3 repsList := by
  intro h
  unfold formatS3 joinNL at h
  rcases mem_joinSep _ _ _ h with h | ⟨l, hl, hcl⟩
  · exact absurd h (by decide)
  · obtain ⟨r, hrm, hlr⟩ := List.mem_flatMap.mp hl
    exact nl_not_mem_s3Line r (hr r hrm) l hlr hcl

/-! ### Where the legend pattern `X = ` cannot start -/

/-- No occurrence of `X` in `A` is followed (within `A ++ Q`) by a space —
so the legend pattern `X = ` cannot start inside `A`. -/
def noLegendStart (X : Char) (A Q : List Char) : Prop :=
  ∀ B rest, A = B ++ X :: rest → (rest ++ Q).head? ≠ some ' '

lemma noLegendStart_nil (X : Char) (Q : List Char) : noLegendStart X [] Q := by
  intro B rest h
  exact absurd h (by simp)

lemma noLegendStart_not_mem (X : Char) (A Q : List Char) (h : X ∉ A) :
    noLegendStart X A Q := by
  intro B rest hA
  exfalso
  apply h
  rw [hA]
  exact List.mem_append.mpr (Or.inr (List.mem_cons_self _ _))

lemma noLegendStart_alnum (X : Char) (A Q : List Char)
    (hA : A.all isAlnumChar = true) (hQ : Q.head? ≠ some ' ') :
    noLegendStart X A Q := by
  intro B rest h
  cases rest with
  | nil => simpa using hQ
  | cons r rs =>
    have hr : r ∈ A := by rw [h]; simp
    have hal := List.all_eq_true.mp hA _ hr
    intro hh
    simp only [List.cons_append, List.head?_cons, Option.some_inj] at hh
    rw [hh] at hal
    exact absurd hal (by decide)

lemma noLegendStart_single (X c : Char) (Q : List Char)
    (hQ : Q.head? ≠ some ' ') : noLegendStart X [c] Q := by
  intro B rest h
  have hlen : ([c] : List Char).length = (B ++ X :: rest).length := by rw [h]
  simp only [List.length_cons, List.length_append, List.length_nil] at hlen
  have hrest : rest = [] := List.eq_nil_of_length_eq_zero (by omega)
  subst hrest
  simpa using hQ

lemma noLegendStart_append (X : Char) (A B Q : List Char)
    (hA : noLegendStart X A (B ++ Q)) (hB : noLegendStart X B Q) :
    noLegendStart X (A ++ B) Q := by
  intro B' rest h
  rcases List.append_eq_append_iff.mp h with ⟨a', _, ha2⟩ | ⟨c', hc1, hc2⟩
  · exact hB a' rest ha2
  · cases c' with
    | nil =>
      simp only [List.nil_append] at hc2
      exact hB [] rest (by simp only [List.nil_append]; exact hc2.symm)
    | cons x c'' =>
      have hx : X = x ∧ rest = c'' ++ B := by
        have h1 := congrArg List.head? hc2
        have h2 := congrArg List.tail hc2
        simp only [List.cons_append, List.head?_cons, Option.some_inj,
          List.tail_cons] at h1 h2
        exact ⟨h1, h2⟩
      obtain ⟨rfl, rfl⟩ := hx
      have := hA B' c'' hc1
      rw [List.append_assoc]
      exact this

/-- `findCapture` skips a prefix in which the legend pattern cannot
start. -/
lemma findCapture_skip (X : Char) (P Q : List Char)
    (h : noLegendStart X P Q) :
    findCapture [X, ' ', '=', ' '] (P ++ Q) = findCapture [X, ' ', '=', ' '] Q := by
  induction P with
  | nil => rfl
  | cons c P' ih =>
    have hpre : ¬([X, ' ', '=', ' '].isPrefixOf (c :: (P' ++ Q)) = true) := by
      intro hp
      rw [List.isPrefixOf_iff_prefix] at hp
      obtain ⟨t, ht⟩ := hp
      have hX : X = c := by
        have := congrArg List.head? ht
        simpa using this
      have htail : ' ' :: '=' :: ' ' :: t = P' ++ Q := by
        have := congrArg List.tail ht
        simpa using this
      have hne := h [] P' (by simp [hX])
      rw [← htail] at hne
      simp at hne
    rw [List.cons_append, findCapture, if_neg (fun hc => hpre hc.1)]
    exact ih fun B rest hB => h (c :: B) rest (by rw [hB, List.cons_append])

/-- `findCapture` at a position where the pattern is immediately followed
by the alphanumeric run `u` captures exactly `u`. -/
lemma findCapture_here (X : Char) (u R : List Char)
    (hu : u ≠ []) (hall : u.all isAlnumChar = true)
    (hR : ∀ c, R.head? = some c → isAlnumChar c = false) :
    findCapture [X, ' ', '=', ' '] (X :: ' ' :: '=' :: ' ' :: (u ++ R)) =
      some u := by
  have hdrop : ((X :: ' ' :: '=' :: ' ' :: (u ++ R)).drop
      ([X, ' ', '=', ' '] : List Char).length).takeWhile isAlnumChar = u := by
    simp only [List.length_cons, List.length_nil, List.drop_succ_cons,
      List.drop_zero]
    exact takeWhile_all_append _ _ _ hall hR
  rw [findCapture, if_pos]
  · rw [hdrop]
  · constructor
    · rw [List.isPrefixOf_iff_prefix]
      exact ⟨u ++ R, rfl⟩
    · rw [hdrop]; exact hu

/-- The legend pattern cannot start inside a joined line list when it can
start inside no line. -/
lemma noLegendStart_joinSep (X s0 : Char) (sep' : List Char)
    (hsepX : X ∉ s0 :: sep') (hs0 : s0 ≠ ' ')
    (ls : List (List Char)) (Q : List Char) (hQ : Q.head? ≠ some ' ')
    (h : ∀ L ∈ ls, ∀ Q', Q'.head? ≠ some ' ' → noLegendStart X L Q') :
    noLegendStart X (joinSep (s0 :: sep') ls) Q := by
  induction ls with
  | nil => exact noLegendStart_nil X Q
  | cons l ls' ih =>
    cases ls' with
    | nil => exact h l (List.mem_cons_self _ _) Q hQ
    | cons l2 ls'' =>
      have hgoal : joinSep (s0 :: sep') (l :: l2 :: ls'') =
          l ++ ((s0 :: sep') ++ joinSep (s0 :: sep') (l2 :: ls'')) := by
        simp [joinSep, List.append_assoc]
      rw [hgoal]
      apply noLegendStart_append
      · exact h l (List.mem_cons_self _ _) _ (by simp [hs0])
      · apply noLegendStart_append
        · exact noLegendStart_not_mem _ _ _ hsepX
        · exact ih fun L hL => h L (List.mem_cons_of_mem _ hL)

/-! ### The short code of the pick occurs nowhere before its legend entry -/

lemma codes_not_mem_weekday (X : Char) (hX : X ∈ codes) (w : String)
    (hw : wfWeekday w) : X ∉ w.data := by
  intro hm
  have hall := List.all_eq_true.mp hw _ hm
  simp only [codes, List.mem_cons, List.not_mem_nil, or_false] at hX
  rcases hX with rfl | rfl | rfl <;> exact absurd hall (by decide)

lemma codes_not_mem_date (X : Char) (hX : X ∈ codes) (d : String)
    (hd : wfDate d) : X ∉ d.data := by
  intro hm
  have hall := List.all_eq_true.mp hd.2 _ hm
  simp only [codes, List.mem_cons, List.not_mem_nil, or_false] at hX
  rcases hX with rfl | rfl | rfl <;> exact absurd hall (by decide)

lemma codes_not_mem_time (X : Char) (hX : X ∈ codes) (t : String)
    (ht : wfTime t) : X ∉ t.data := by
  intro hm
  rcases wfTime_chars ht _ hm with h | h
  · simp only [codes, List.mem_cons, List.not_mem_nil, or_false] at hX
    rcases hX with rfl | rfl | rfl <;> exact absurd h (by decide)
  · rw [h] at hX
    exact absurd hX (by decide)

/-- A strategy-2 time entry is safe: a short code inside it is never
followed by a space. -/
lemma s2Entry_safe (X : Char) (hX : X ∈ codes) (uids : List String)
    (e : TimeEntry) (ht : wfTime e.time) :
    ∀ Q, Q.head? ≠ some ' ' → noLegendStart X (s2Entry uids e) Q := by
  intro Q hQ
  unfold s2Entry
  cases e.userId with
  | none => exact noLegendStart_not_mem _ _ _ (codes_not_mem_time X hX _ ht)
  | some u =>
    show noLegendStart X
      (e.time.data ++ (['('] ++ ([codeFor uids u] ++ [')']))) Q
    apply noLegendStart_append
    · exact noLegendStart_not_mem _ _ _ (codes_not_mem_time X hX _ ht)
    apply noLegendStart_append
    · exact noLegendStart_not_mem _ _ _ (codes_not_mem_of X hX _ (by decide))
    apply noLegendStart_append
    · exact noLegendStart_single _ _ _ (by simp)
    · exact noLegendStart_not_mem _ _ _ (codes_not_mem_of X hX _ (by decide))

/-- A strategy-2 date line is safe. -/
lemma s2DateLine_safe (X : Char) (hX : X ∈ codes) (uids : List String)
    (g : DateGroup) (hg : wfGroup g) :
    ∀ Q, Q.head? ≠ some ' ' → noLegendStart X (s2DateLine uids g) Q := by
  obtain ⟨hw, hd, ht⟩ := hg
  intro Q hQ
  have hshape : s2DateLine uids g =
      g.weekday.data ++ ([' '] ++ (g.date.data ++ ([':'] ++ ([' '] ++
        joinComma (g.times.map (s2Entry uids)))))) := by
    simp [s2DateLine, dateHeader, List.append_assoc]
  rw [hshape]
  apply noLegendStart_append
  · exact noLegendStart_not_mem _ _ _ (codes_not_mem_weekday X hX _ hw)
  apply noLegendStart_append
  · exact noLegendStart_not_mem _ _ _ (codes_not_mem_of X hX _ (by decide))
  apply noLegendStart_append
  · exact noLegendStart_not_mem _ _ _ (codes_not_mem_date X hX _ hd)
  apply noLegendStart_append
  · exact noLegendStart_not_mem _ _ _ (codes_not_mem_of X hX _ (by decide))
  apply noLegendStart_append
  · exact noLegendStart_not_mem _ _ _ (codes_not_mem_of X hX _ (by decide))
  · unfold joinComma
    apply noLegendStart_joinSep X ',' [' ']
      (codes_not_mem_of X hX _ (by decide)) (by decide) _ _ hQ
    intro L hL Q' hQ'
    obtain ⟨e, he, rfl⟩ := List.mem_map.mp hL
    exact s2Entry_safe X hX uids e (ht e he) Q' hQ'

/-- A legend entry whose short code differs from `X` is safe. -/
lemma legendLine_safe (X : Char) (hX : X ∈ codes) (j : Nat) (u : String)
    (hu : wfUid u) (hne : codes.getD j '?' ≠ X) :
    ∀ Q, Q.head? ≠ some ' ' → noLegendStart X (legendLine j u) Q := by
  intro Q hQ
  show noLegendStart X
    ([codes.getD j '?'] ++ ([' '] ++ (['='] ++ ([' '] ++ u.data)))) Q
  apply noLegendStart_append
  · refine noLegendStart_not_mem _ _ _ ?_
    simp only [List.mem_singleton]
    exact fun h => hne h.symm
  apply noLegendStart_append
  · exact noLegendStart_not_mem _ _ _ (codes_not_mem_of X hX _ (by decide))
  apply noLegendStart_append
  · exact noLegendStart_not_mem _ _ _ (codes_not_mem_of X hX _ (by decide))
  apply noLegendStart_append
  · exact noLegendStart_not_mem _ _ _ (codes_not_mem_of X hX _ (by decide))
  · exact noLegendStart_alnum _ _ _ hu.2 hQ

/-- Splitting `enumFrom` at a distinguished element. -/
lemma enumFrom_split {α : Type} (A : List α) (x : α) (B : List α) (n : Nat) :
    (A ++ x :: B).enumFrom n =
      A.enumFrom n ++ (n + A.length, x) :: B.enumFrom (n + A.length + 1) := by
  induction A generalizing n with
  | nil => simp [List.enumFrom]
  | cons a A' ih =>
    simp only [List.cons_append, List.enumFrom, List.append_eq, ih (n + 1),
      List.length_cons]
    have hn : n + 1 + A'.length = n + (A'.length + 1) := by omega
    rw [hn]

/-- The legend lookup of the pick's short code captures exactly the rep
id the formatter assigned to that code. -/
lemma legend_lookup (groups : List DateGroup) (uids : List String) (u : String)
    (hg : ∀ g ∈ groups, wfGroup g) (hus : ∀ v ∈ uids, wfUid v)
    (hlen : uids.length ≤ 3) (hu : u ∈ uids) :
    findCapture [codeFor uids u, ' ', '=', ' '] (formatS2 groups uids) =
      some u.data := by
  set i := uids.indexOf u with hi_def
  have hi : i < uids.length := List.indexOf_lt_length.mpr hu
  have hi3 : i < 3 := lt_of_lt_of_le hi hlen
  set X := codes.getD i '?' with hX_def
  have hXcodes : X ∈ codes := codes_getD_lt_mem i hi3
  have hcode : codeFor uids u = X := by rw [hX_def, hi_def]; rfl
  have hsplit : uids = uids.take i ++ u :: uids.drop (i + 1) := by
    conv_lhs => rw [← List.take_append_drop i uids]
    congr 1
    rw [List.drop_eq_getElem_cons hi]
    congr 1
    exact List.getElem_indexOf hi
  have htake_len : (uids.take i).length = i := by
    rw [List.length_take]; omega
  have henum : uids.enum = (uids.take i).enumFrom 0 ++
      (i, u) :: (uids.drop (i + 1)).enumFrom (i + 1) := by
    conv_lhs => rw [hsplit]
    show (uids.take i ++ u :: uids.drop (i + 1)).enumFrom 0 = _
    rw [enumFrom_split, htake_len]
    simp only [Nat.zero_add]
  set preLines := groups.map (s2DateLine uids) ++ ["\\nSales Reps:".data] ++
    ((uids.take i).enumFrom 0).map (fun ju => legendLine ju.1 ju.2)
    with hpre_def
  set sufLines := ((uids.drop (i + 1)).enumFrom (i + 1)).map
    (fun ju => legendLine ju.1 ju.2) with hsuf_def
  have hpre_ne : preLines ≠ [] := by simp [hpre_def]
  have hlines : groups.map (s2DateLine uids) ++ ["\\nSales Reps:".data] ++
      uids.enum.map (fun ju => legendLine ju.1 ju.2) =
      preLines ++ (legendLine i u :: sufLines) := by
    rw [henum, List.map_append, hpre_def, hsuf_def]
    simp [List.append_assoc]
  have hT : formatS2 groups uids = (joinSep "\\n".data preLines ++ "\\n".data) ++
      joinSep "\\n".data (legendLine i u :: sufLines) := by
    unfold formatS2 joinNL
    rw [hlines, joinSep_append _ _ _ hpre_ne (by simp)]
  have hskip : noLegendStart X (joinSep "\\n".data preLines ++ "\\n".data)
      (joinSep "\\n".data (legendLine i u :: sufLines)) := by
    apply noLegendStart_append
    · show noLegendStart X (joinSep ('\\' :: ['n']) preLines) _
      apply noLegendStart_joinSep X '\\' ['n']
        (codes_not_mem_of X hXcodes _ (by decide)) (by decide)
      · rw [show ("\\n".data : List Char) = ['\\', 'n'] from rfl]
        simp
      · intro L hL Q' hQ'
        rw [hpre_def] at hL
        rcases List.mem_append.mp hL with hL | hL
        · rcases List.mem_append.mp hL with hL | hL
          · obtain ⟨g, hgm, rfl⟩ := List.mem_map.mp hL
            exact s2DateLine_safe X hXcodes uids g (hg g hgm) Q' hQ'
          · rcases List.mem_cons.mp hL with rfl | hL
            · exact noLegendStart_not_mem _ _ _
                (codes_not_mem_of X hXcodes _ (by decide))
            · exact absurd hL (by simp)
        · obtain ⟨ju, hju, rfl⟩ := List.mem_map.mp hL
          obtain ⟨hj0, hji, hjm⟩ := mem_enumFrom_facts _ _ _ hju
          have hji' : ju.1 < i := by rw [htake_len] at hji; omega
          refine legendLine_safe X hXcodes ju.1 ju.2
            (hus ju.2 (List.mem_of_mem_take hjm)) ?_ Q' hQ'
          rw [hX_def]
          exact codes_getD_ne ju.1 i (by omega) hi3 (by omega)
    · exact noLegendStart_not_mem _ _ _ (codes_not_mem_of X hXcodes _ (by decide))
  rw [hcode, hT, findCapture_skip X _ _ hskip]
  rcases joinSep_cons "\\n".data (legendLine i u) sufLines with hJ | hJ <;> rw [hJ]
  · have hform : legendLine i u = X :: ' ' :: '=' :: ' ' :: (u.data ++ []) := by
      rw [List.append_nil]
      unfold legendLine
      rw [← hX_def]
    rw [hform]
    exact findCapture_here X u.data [] (hus u hu).1 (hus u hu).2
      (by intro c hc; simp at hc)
  · have hform : legendLine i u ++ ("\\n".data ++ joinSep "\\n".data sufLines) =
        X :: ' ' :: '=' :: ' ' ::
          (u.data ++ ("\\n".data ++ joinSep "\\n".data sufLines)) := by
      unfold legendLine
      rw [← hX_def]
      simp [List.cons_append, List.append_assoc]
    rw [hform]
    apply findCapture_here X u.data _ (hus u hu).1 (hus u hu).2
    intro c hc
    rw [show ("\\n".data : List Char) = ['\\', 'n'] from rfl] at hc
    simp only [List.cons_append, List.head?_cons, Option.some_inj] at hc
    rw [← hc]
    decide

/-! ### The abbreviated-suffix test on picks -/

/-- The abbreviated-format test accepts `<pre>(X)` for a short code `X`
and strips the suffix. -/
lemma abbrevMatch_suffixed (pre : List Char) (X : Char)
    (hX : X ∈ codes) (hpre : pre ≠ [])
    (hnl : '\n' ∉ pre) (hcr : '\r' ∉ pre) :
    abbrevMatch (pre ++ ['(', X, ')']) = some (X, pre) := by
  have h1 : (pre ++ ['(', X, ')']).reverse = ')' :: X :: '(' :: pre.reverse := by
    simp
  rw [abbrevMatch, h1]
  dsimp only
  rw [if_pos]
  · rw [List.reverse_reverse]
  · refine ⟨rfl, rfl, ?_, ?_, ?_, ?_⟩
    · simpa [codes] using hX
    · simpa using hpre
    · rw [contains_eq_false_of_not_mem (by simpa using hnl)]
      simp
    · rw [contains_eq_false_of_not_mem (by simpa using hcr)]
      simp

/-- The abbreviated-format test rejects a pick not ending in `)`. -/
lemma abbrevMatch_none_of_last (l : List Char) (c : Char)
    (hc : l.reverse.head? = some c) (hne : c ≠ ')') : abbrevMatch l = none := by
  rw [abbrevMatch]
  cases hrev : l.reverse with
  | nil => rfl
  | cons c3 rest =>
    rw [hrev] at hc
    simp only [List.head?_cons, Option.some_inj] at hc
    subst hc
    cases rest with
    | nil => rfl
    | cons l2 rest2 =>
      cases rest2 with
      | nil => rfl
      | cons c1 restRev =>
        dsimp only
        rw [if_neg fun hcond => hne hcond.1]

/-! ### The trailer test -/

/-- Computing the maximal alphanumeric suffix of `B ++ u`. -/
lemma trailer_suffix (B u : List Char) (hall : u.all isAlnumChar = true)
    (hB : ∀ c, B.reverse.head? = some c → isAlnumChar c = false) :
    ((B ++ u).reverse.takeWhile isAlnumChar).reverse = u := by
  rw [List.reverse_append]
  rw [takeWhile_all_append _ _ _ (by simpa using hall) hB]
  exact List.reverse_reverse u

/-- The prefix kept by the trailer test. -/
lemma trailer_take (B u : List Char) :
    (B ++ u).take ((B ++ u).length - u.length) = B := by
  rw [List.length_append, Nat.add_sub_cancel]
  exact List.take_left B u

/-- The trailer test captures the id of a text ending in
`Sales Rep: <id>`. -/
lemma salesRepTrailer_some (B0 u : List Char) (hu : u ≠ [])
    (hall : u.all isAlnumChar = true) :
    salesRepTrailer ((B0 ++ "Sales Rep: ".data) ++ u) = some u := by
  have hB : ∀ c, (B0 ++ "Sales Rep: ".data).reverse.head? = some c →
      isAlnumChar c = false := by
    intro c hc
    rw [List.reverse_append] at hc
    rw [show ("Sales Rep: ".data : List Char).reverse =
      ' ' :: ':' :: 'p' :: 'e' :: 'R' :: ' ' :: 's' :: 'e' :: 'l' :: 'a' :: ['S']
      from rfl] at hc
    simp only [List.cons_append, List.head?_cons, Option.some_inj] at hc
    rw [← hc]
    decide
  have hsuf := trailer_suffix _ _ hall hB
  have htake := trailer_take (B0 ++ "Sales Rep: ".data) u
  simp only [salesRepTrailer]
  rw [hsuf, htake, if_pos]
  exact ⟨hu, by rw [List.isSuffixOf_iff_suffix]; exact List.suffix_append B0 _⟩

/-- The trailer test fails on a text whose last character is not
alphanumeric. -/
lemma salesRepTrailer_none_head (text : List Char) (c : Char)
    (hc : text.reverse.head? = some c) (hal : isAlnumChar c = false) :
    salesRepTrailer text = none := by
  simp only [salesRepTrailer]
  rw [if_neg]
  intro hcond
  apply hcond.1
  cases hrev : text.reverse with
  | nil => rw [hrev] at hc; simp at hc
  | cons a rest =>
    rw [hrev] at hc
    simp only [List.head?_cons, Option.some_inj] at hc
    subst hc
    simp [List.takeWhile_cons, hal]

/-- The trailer test fails on a text ending in `= <alnum-run>` — the
shape of every legend entry. -/
lemma salesRepTrailer_none_eq (B0 u : List Char) (hu : u ≠ [])
    (hall : u.all isAlnumChar = true) :
    salesRepTrailer ((B0 ++ ['=', ' ']) ++ u) = none := by
  have hB : ∀ c, (B0 ++ ['=', ' ']).reverse.head? = some c →
      isAlnumChar c = false := by
    intro c hc
    rw [List.reverse_append] at hc
    simp only [List.reverse_cons, List.reverse_nil, List.nil_append,
      List.cons_append, List.head?_cons, Option.some_inj] at hc
    rw [← hc]
    decide
  have hsuf := trailer_suffix _ _ hall hB
  have htake := trailer_take (B0 ++ ['=', ' ']) u
  simp only [salesRepTrailer]
  rw [hsuf, htake, if_neg]
  intro hcond
  have hs := hcond.2
  rw [List.isSuffixOf_iff_suffix] at hs
  obtain ⟨B', hB'⟩ := hs
  have hrev := congrArg List.reverse hB'
  rw [List.reverse_append, List.reverse_append] at hrev
  rw [show (['S', 'a', 'l', 'e', 's', ' ', 'R', 'e', 'p', ':', ' '] :
    List Char).reverse =
    [' ', ':', 'p', 'e', 'R', ' ', 's', 'e', 'l', 'a', 'S'] from rfl] at hrev
  rw [show (['=', ' '] : List Char).reverse = [' ', '='] from rfl] at hrev
  have h2 := congrArg (fun l => l.tail.head?) hrev
  simp at h2

/-- The trailer test fails on a text ending in a rendered `HH:MM` time —
the shape of every strategy-3 availability line. -/
lemma salesRepTrailer_none_time (B : List Char) (a b c d : Char)
    (ha : a.isDigit = true) (hb : b.isDigit = true) (hc : c.isDigit = true)
    (hd : d.isDigit = true) :
    salesRepTrailer (B ++ [a, b, ':', c, d]) = none := by
  have hre : B ++ [a, b, ':', c, d] = (B ++ [a, b, ':']) ++ [c, d] := by
    simp [List.append_assoc]
  rw [hre]
  have hB : ∀ x, (B ++ [a, b, ':']).reverse.head? = some x →
      isAlnumChar x = false := by
    intro x hx
    rw [List.reverse_append] at hx
    simp only [List.reverse_cons, List.reverse_nil, List.nil_append,
      List.cons_append, List.head?_cons, Option.some_inj] at hx
    rw [← hx]
    decide
  have hall : ([c, d] : List Char).all isAlnumChar = true := by
    simp [List.all_cons, isAlnumChar_of_digit hc, isAlnumChar_of_digit hd]
  have hsuf := trailer_suffix _ _ hall hB
  have htake := trailer_take (B ++ [a, b, ':']) [c, d]
  simp only [salesRepTrailer]
  rw [hsuf, htake, if_neg]
  intro hcond
  have hs := hcond.2
  rw [List.isSuffixOf_iff_suffix] at hs
  obtain ⟨B', hB'⟩ := hs
  have hrev2 := congrArg List.reverse hB'
  rw [List.reverse_append, List.reverse_append] at hrev2
  rw [show (['S', 'a', 'l', 'e', 's', ' ', 'R', 'e', 'p', ':', ' '] :
    List Char).reverse =
    [' ', ':', 'p', 'e', 'R', ' ', 's', 'e', 'l', 'a', 'S'] from rfl] at hrev2
  rw [show ([a, b, ':'] : List Char).reverse = [':', b, a] from rfl] at hrev2
  have h2 := congrArg List.head? hrev2
  simp at h2

/-- The trailer test fails on the empty text. -/
lemma salesRepTrailer_nil : salesRepTrailer [] = none := by decide

/-- The strategy-1 output ends in `Sales Rep: <id>`, and the trailer test
captures exactly that id. -/
lemma salesRepTrailer_formatS1 (groups : List DateGroup) (uid : String)
    (hu : wfUid uid) :
    salesRepTrailer (formatS1 groups uid) = some uid.data := by
  unfold formatS1 joinNL
  obtain ⟨B, hB⟩ := joinSep_concat "\\n".data (groups.map s1DateLine)
    ("\\nSales Rep: ".data ++ uid.data)
  rw [hB]
  have hshape : B ++ ("\\nSales Rep: ".data ++ uid.data) =
      ((B ++ ['\\', 'n']) ++ "Sales Rep: ".data) ++ uid.data := by
    rw [show ("\\nSales Rep: ".data : List Char) =
      ['\\', 'n'] ++ "Sales Rep: ".data from rfl]
    simp [List.append_assoc]
  rw [hshape]
  exact salesRepTrailer_some _ _ hu.1 hu.2

/-- The strategy-2 output never passes the trailer test: it ends either
in the `Sales Reps:` header (no reps) or in a legend entry `X = <id>`. -/
lemma salesRepTrailer_formatS2 (groups : List DateGroup) (uids : List String)
    (hus : ∀ v ∈ uids, wfUid v) :
    salesRepTrailer (formatS2 groups uids) = none := by
  unfold formatS2 joinNL
  rcases List.eq_nil_or_concat uids with rfl | ⟨us', w, rfl⟩
  · simp only [List.enum_nil, List.map_nil, List.append_nil]
    obtain ⟨B, hB⟩ := joinSep_concat "\\n".data (groups.map (s2DateLine []))
      "\\nSales Reps:".data
    rw [hB]
    apply salesRepTrailer_none_head _ ':'
    · rw [show ("\\nSales Reps:".data : List Char) =
        "\\nSales Reps".data ++ [':'] from rfl]
      rw [← List.append_assoc, List.reverse_append]
      rfl
    · decide
  · simp only [List.concat_eq_append] at hus ⊢
    have henum : (us' ++ [w]).enum = us'.enumFrom 0 ++ [(us'.length, w)] := by
      show (us' ++ [w]).enumFrom 0 = _
      rw [enumFrom_split]
      simp [List.enumFrom]
    rw [henum, List.map_append]
    have hassoc : groups.map (s2DateLine (us' ++ [w])) ++
        ["\\nSales Reps:".data] ++
        (List.map (fun ju => legendLine ju.1 ju.2) (us'.enumFrom 0) ++
          List.map (fun ju => legendLine ju.1 ju.2) [(us'.length, w)]) =
        (groups.map (s2DateLine (us' ++ [w])) ++ ["\\nSales Reps:".data] ++
          List.map (fun ju => legendLine ju.1 ju.2) (us'.enumFrom 0)) ++
          [legendLine us'.length w] := by
      simp [List.append_assoc]
    rw [hassoc]
    obtain ⟨B, hB⟩ := joinSep_concat "\\n".data _ (legendLine us'.length w)
    rw [hB]
    have hw : wfUid w := hus w (by simp)
    have hform : B ++ legendLine us'.length w =
        ((B ++ [codes.getD us'.length '?', ' ']) ++ ['=', ' ']) ++ w.data := by
      unfold legendLine
      simp [List.append_assoc]
    rw [hform]
    exact salesRepTrailer_none_eq _ _ hw.1 hw.2

/-- The strategy-3 output never passes the trailer test: it is empty or
ends in a section header `:`, a bare availability header, or a rendered
time. -/
lemma salesRepTrailer_formatS3 (repsList : List RepGroup)
    (hr : ∀ r ∈ repsList, wfRepGroup r) :
    salesRepTrailer (formatS3 repsList) = none := by
  unfold formatS3 joinNL
  rcases List.eq_nil_or_concat repsList with rfl | ⟨rs, r, rfl⟩
  · exact salesRepTrailer_nil
  · simp only [List.concat_eq_append] at hr ⊢
    rw [List.flatMap_append]
    obtain ⟨hru, hrd⟩ := hr r (by simp)
    rcases List.eq_nil_or_concat r.dates with hdates | ⟨ds, dl, hdates⟩
    · -- no dates: the section is just the header line ending in `:`
      have hlines : ([r] : List RepGroup).flatMap s3RepLines =
          ["\\n".data ++ r.userId.data ++ [':']] := by
        simp [s3RepLines, hdates]
      rw [hlines]
      obtain ⟨B, hB⟩ := joinSep_concat "\\n".data (rs.flatMap s3RepLines)
        ("\\n".data ++ r.userId.data ++ [':'])
      rw [hB]
      apply salesRepTrailer_none_head _ ':'
      · rw [show "\\n".data ++ r.userId.data ++ [':'] =
          ("\\n".data ++ r.userId.data) ++ [':'] from rfl]
        rw [← List.append_assoc, List.reverse_append]
        rfl
      · decide
    · obtain ⟨hwd, hdd, htd⟩ := hrd dl (by rw [hdates]; simp)
      have hlines : rs.flatMap s3RepLines ++ ([r] : List RepGroup).flatMap s3RepLines =
          (rs.flatMap s3RepLines ++
            (("\\n".data ++ r.userId.data ++ [':']) ::
              ds.map fun d => ' ' :: ' ' :: (dateHeader d.weekday d.date ++
                ':' :: ' ' :: joinComma (d.times.map String.data)))) ++
          [' ' :: ' ' :: (dateHeader dl.weekday dl.date ++
            ':' :: ' ' :: joinComma (dl.times.map String.data))] := by
        simp [s3RepLines, hdates, List.append_assoc]
      rw [hlines]
      obtain ⟨B, hB⟩ := joinSep_concat "\\n".data _
        (' ' :: ' ' :: (dateHeader dl.weekday dl.date ++
          ':' :: ' ' :: joinComma (dl.times.map String.data)))
      rw [hB]
      rcases List.eq_nil_or_concat dl.times with htimes | ⟨ts, tl, htimes⟩
      · -- no times: the line ends in `: ` — final character is a space
        rw [htimes]
        have hform : B ++ ' ' :: ' ' :: (dateHeader dl.weekday dl.date ++
            ':' :: ' ' :: joinComma (([] : List String).map String.data)) =
            (B ++ ' ' :: ' ' :: (dateHeader dl.weekday dl.date ++ [':'])) ++
              [' '] := by
          simp [joinComma, joinSep, List.append_assoc]
        rw [hform]
        apply salesRepTrailer_none_head _ ' '
        · rw [List.reverse_append]
          rfl
        · decide
      · -- the line ends in the last rendered time `HH:MM`
        obtain ⟨a, b, c, d, ha, hb, hc, hd, he⟩ :=
          htd tl (by rw [htimes]; simp)
        have hjoin : joinComma (dl.times.map String.data) =
            (joinComma ((ts.map String.data) ++ [tl.data])) := by
          rw [htimes]; simp
        obtain ⟨B2, hB2⟩ := joinSep_concat ", ".data (ts.map String.data) tl.data
        have hform : B ++ ' ' :: ' ' :: (dateHeader dl.weekday dl.date ++
            ':' :: ' ' :: joinComma (dl.times.map String.data)) =
            (B ++ ' ' :: ' ' :: (dateHeader dl.weekday dl.date ++
              ':' :: ' ' :: B2)) ++ [a, b, ':', c, d] := by
          rw [hjoin]
          show B ++ ' ' :: ' ' :: (dateHeader dl.weekday dl.date ++
            ':' :: ' ' :: joinSep ", ".data ((ts.map String.data) ++ [tl.data])) = _
          rw [hB2, he]
          simp [List.append_assoc]
        rw [hform]
        exact salesRepTrailer_none_time _ a b c d ha hb hc hd

/-! ### Resolution of picks against each format -/

lemma String_mk_data (l : List Char) : (String.mk l).data = l := rfl

/-- A pick `DD-MM-YYYY HH:MM` ends in a digit. -/
lemma pick_last_digit (ddata : List Char) (t : String) (ht : wfTime t) :
    ∃ c, (ddata ++ ' ' :: t.data).reverse.head? = some c ∧ c.isDigit = true := by
  obtain ⟨a, b, c, d, ha, hb, hc, hd, he⟩ := ht
  refine ⟨d, ?_, hd⟩
  rw [he, List.reverse_append]
  rw [show (' ' :: [a, b, ':', c, d]).reverse = [d, c, ':', b, a, ' '] from rfl]
  rfl

/-- An unsuffixed pick never looks abbreviated. -/
lemma abbrevMatch_pick_none (ddata : List Char) (t : String) (ht : wfTime t) :
    abbrevMatch (ddata ++ ' ' :: t.data) = none := by
  obtain ⟨c, hc, hdig⟩ := pick_last_digit ddata t ht
  refine abbrevMatch_none_of_last _ c hc ?_
  intro hcontra
  rw [hcontra] at hdig
  exact absurd hdig (by decide)

/-- Resolving any pick against the strategy-1 text recovers the single
rep's id from the `Sales Rep:` trailer. -/
lemma resolve_formatS1 (groups : List DateGroup) (uid : String) (d t : String)
    (hd : wfDate d) (ht : wfTime t)
    (hg : ∀ g ∈ groups, wfGroup g) (hu : wfUid uid) :
    resolveUserId (String.mk (d.data ++ ' ' :: t.data)) (formatS1 groups uid) =
      some uid := by
  have habv := abbrevMatch_pick_none d.data t ht
  have hrep : repSectionLookup (stripLeadingDate (d.data ++ ' ' :: t.data))
      (formatS1 groups uid) = none :=
    repSectionLookup_none _ _ (by
      rw [contains_eq_false_of_not_mem (nl_not_mem_formatS1 groups uid hg hu)]
      simp)
  have htr := salesRepTrailer_formatS1 groups uid hu
  simp only [resolveUserId, String_mk_data, habv, hrep, htr]
  rfl

/-- Resolving a suffixed pick `…(X)` against the strategy-2 text recovers
exactly the rep id that the legend assigns to `X`. -/
lemma resolve_formatS2_suffixed (groups : List DateGroup) (uids : List String)
    (u d t : String) (hd : wfDate d) (ht : wfTime t)
    (hg : ∀ g ∈ groups, wfGroup g) (hus : ∀ v ∈ uids, wfUid v)
    (hlen : uids.length ≤ 3) (humem : u ∈ uids) :
    resolveUserId
      (String.mk ((d.data ++ ' ' :: t.data) ++ ['(', codeFor uids u, ')']))
      (formatS2 groups uids) = some u := by
  have hXc : codeFor uids u ∈ codes := by
    unfold codeFor
    exact codes_getD_lt_mem _
      (lt_of_lt_of_le (List.indexOf_lt_length.mpr humem) hlen)
  have habv : abbrevMatch
      ((d.data ++ ' ' :: t.data) ++ ['(', codeFor uids u, ')']) =
      some (codeFor uids u, d.data ++ ' ' :: t.data) := by
    refine abbrevMatch_suffixed _ _ hXc (by simp) ?_ ?_
    · intro hcontra
      rcases List.mem_append.mp hcontra with h | h
      · exact absurd (List.all_eq_true.mp hd.2 _ h) (by decide)
      · rcases List.mem_cons.mp h with h | h
        · exact absurd h (by decide)
        · exact nl_not_mem_time ht h
    · intro hcontra
      rcases List.mem_append.mp hcontra with h | h
      · exact absurd (List.all_eq_true.mp hd.2 _ h) (by decide)
      · rcases List.mem_cons.mp h with h | h
        · exact absurd h (by decide)
        · rcases wfTime_chars ht _ h with h' | h'
          · exact absurd h' (by decide)
          · exact absurd h' (by decide)
  have hleg := legend_lookup groups uids u hg hus hlen humem
  simp only [resolveUserId, String_mk_data, habv, hleg]
  rfl

/-- Resolving an unsuffixed pick against the strategy-2 text yields no
rep at all. -/
lemma resolve_formatS2_plain (groups : List DateGroup) (uids : List String)
    (d t : String) (hd : wfDate d) (ht : wfTime t)
    (hg : ∀ g ∈ groups, wfGroup g) (hus : ∀ v ∈ uids, wfUid v) :
    resolveUserId (String.mk (d.data ++ ' ' :: t.data)) (formatS2 groups uids) =
      none := by
  have habv := abbrevMatch_pick_none d.data t ht
  have hrep : repSectionLookup (stripLeadingDate (d.data ++ ' ' :: t.data))
      (formatS2 groups uids) = none :=
    repSectionLookup_none _ _ (by
      rw [contains_eq_false_of_not_mem (nl_not_mem_formatS2 groups uids hg hus)]
      simp)
  have htr := salesRepTrailer_formatS2 groups uids hus
  simp only [resolveUserId, String_mk_data, habv, hrep, htr]
  rfl

/-- Resolving any pick against the strategy-3 text yields no rep at all:
its section regex demands literal newlines the formatter never emits, and
its trailer test fails. -/
lemma resolve_formatS3 (repsList : List RepGroup) (d t : String)
    (hd : wfDate d) (ht : wfTime t)
    (hr : ∀ r ∈ repsList, wfRepGroup r) :
    resolveUserId (String.mk (d.data ++ ' ' :: t.data)) (formatS3 repsList) =
      none := by
  have habv := abbrevMatch_pick_none d.data t ht
  have hrep : repSectionLookup (stripLeadingDate (d.data ++ ' ' :: t.data))
      (formatS3 repsList) = none :=
    repSectionLookup_none _ _ (by
      rw [contains_eq_false_of_not_mem (nl_not_mem_formatS3 repsList hr)]
      simp)
  have htr := salesRepTrailer_formatS3 repsList hr
  simp only [resolveUserId, String_mk_data, habv, hrep, htr]
  rfl

/-- **C4.**  Slot display round-trip: for every slot string produced by
the intake formatting and every slot the AI picks from it, the media
bridge's `book_appointment` parsing resolves the pick to the rep id the
formatter assigned to that slot, or to no rep at all — never to a
different rep.  Strategy 1 (single rep) always recovers the single id
from the `Sales Rep:` trailer; strategy 2 (2–3 reps) recovers from a
`(X)`-suffixed pick exactly the id its legend assigns to `X`, and yields
no rep for an unsuffixed pick; strategy 3 (4+ reps) picks always yield
no rep, because its section regex demands literal newline characters
that the formatter (which joins lines with the two-character `\n`
sequence) never emits. -/
theorem slot_display_roundtrip :
    (∀ (groups : List DateGroup) (uid : String) (g : DateGroup) (e : TimeEntry),
      (∀ g' ∈ groups, wfGroup g') → wfUid uid → g ∈ groups → e ∈ g.times →
      resolveUserId (String.mk (g.date.data ++ ' ' :: e.time.data))
        (formatS1 groups uid) = some uid) ∧
    (∀ (groups : List DateGroup) (uids : List String) (g : DateGroup)
        (e : TimeEntry) (u : String),
      (∀ g' ∈ groups, wfGroup g') → (∀ v ∈ uids, wfUid v) →
      uids.length ≤ 3 → g ∈ groups → e ∈ g.times → e.userId = some u →
      u ∈ uids →
      resolveUserId
        (String.mk ((g.date.data ++ ' ' :: e.time.data) ++
          ['(', codeFor uids u, ')']))
        (formatS2 groups uids) = some u) ∧
    (∀ (groups : List DateGroup) (uids : List String) (g : DateGroup)
        (e : TimeEntry),
      (∀ g' ∈ groups, wfGroup g') → (∀ v ∈ uids, wfUid v) →
      g ∈ groups → e ∈ g.times → e.userId = none →
      resolveUserId (String.mk (g.date.data ++ ' ' :: e.time.data))
        (formatS2 groups uids) = none) ∧
    (∀ (repsList : List RepGroup) (r : RepGroup) (dd : RepDate) (t : String),
      (∀ r' ∈ repsList, wfRepGroup r') → r ∈ repsList → dd ∈ r.dates →
      t ∈ dd.times →
      resolveUserId (String.mk (dd.date.data ++ ' ' :: t.data))
        (formatS3 repsList) = none) := by
  refine ⟨?_, ?_, ?_, ?_⟩
  · intro groups uid g e hg hu hgm hem
    obtain ⟨hw, hd, ht⟩ := hg g hgm
    exact resolve_formatS1 groups uid g.date e.time hd (ht e hem) hg hu
  · intro groups uids g e u hg hus hlen hgm hem heu humem
    obtain ⟨hw, hd, ht⟩ := hg g hgm
    exact resolve_formatS2_suffixed groups uids u g.date e.time hd (ht e hem)
      hg hus hlen humem
  · intro groups uids g e hg hus hgm hem heu
    obtain ⟨hw, hd, ht⟩ := hg g hgm
    exact resolve_formatS2_plain groups uids g.date e.time hd (ht e hem) hg hus
  · intro repsList r dd t hr hrm hdm htm
    obtain ⟨hru, hrd⟩ := hr r hrm
    obtain ⟨hw, hd, ht⟩ := hrd dd hdm
    exact resolve_formatS3 repsList dd.date t hd (ht t htm) hr

/-- Concrete formatter inputs for the round-trip witness. -/
def te1 : TimeEntry := ⟨"10:00", some "U1"⟩

def te2 : TimeEntry := ⟨"11:30", none⟩

def tg1 : DateGroup := ⟨"Lun", "17-03-2025", [te1, te2]⟩

def rd1 : RepDate := ⟨"Lun", "17-03-2025", ["10:00"]⟩

def rg1 : RepGroup := ⟨"U9", [rd1]⟩

lemma wf_tg1 : wfGroup tg1 := by
  refine ⟨by unfold wfWeekday; decide, by unfold wfDate; decide, ?_⟩
  intro e he
  rcases List.mem_cons.mp he with rfl | he
  · exact ⟨'1', '0', '0', '0', by decide, by decide, by decide, by decide, rfl⟩
  rcases List.mem_cons.mp he with rfl | he
  · exact ⟨'1', '1', '3', '0', by decide, by decide, by decide, by decide, rfl⟩
  · exact absurd he (by simp)

lemma wf_rg1 : wfRepGroup rg1 := by
  refine ⟨⟨by decide, by decide⟩, ?_⟩
  intro dd hdd
  rcases List.mem_cons.mp hdd with rfl | hdd
  · refine ⟨by unfold wfWeekday; decide, by unfold wfDate; decide, ?_⟩
    intro t htm
    rcases List.mem_cons.mp htm with rfl | htm
    · exact ⟨'1', '0', '0', '0', by decide, by decide, by decide, by decide, rfl⟩
    · exact absurd htm (by simp)
  · exact absurd hdd (by simp)

/-- Concrete round-trip instances for each strategy, obtained by applying
the round-trip theorem. -/
theorem slot_display_roundtrip_witness :
    resolveUserId (String.mk ("17-03-2025".data ++ ' ' :: "10:00".data))
      (formatS1 [tg1] "U1") = some "U1" ∧
    resolveUserId (String.mk (("17-03-2025".data ++ ' ' :: "10:00".data) ++
      ['(', codeFor ["U1", "U2"] "U1", ')']))
      (formatS2 [tg1] ["U1", "U2"]) = some "U1" ∧
    resolveUserId (String.mk ("17-03-2025".data ++ ' ' :: "11:30".data))
      (formatS2 [tg1] ["U1", "U2"]) = none ∧
    resolveUserId (String.mk ("17-03-2025".data ++ ' ' :: "10:00".data))
      (formatS3 [rg1]) = none := by
  have hg : ∀ g' ∈ [tg1], wfGroup g' := by
    intro g' hg'
    rcases List.mem_cons.mp hg' with rfl | hg'
    · exact wf_tg1
    · exact absurd hg' (by simp)
  have hus : ∀ v ∈ ["U1", "U2"], wfUid v := by
    intro v hv
    rcases List.mem_cons.mp hv with rfl | hv
    · exact ⟨by decide, by decide⟩
    rcases List.mem_cons.mp hv with rfl | hv
    · exact ⟨by decide, by decide⟩
    · exact absurd hv (by simp)
  have hr : ∀ r' ∈ [rg1], wfRepGroup r' := by
    intro r' hr'
    rcases List.mem_cons.mp hr' with rfl | hr'
    · exact wf_rg1
    · exact absurd hr' (by simp)
  refine ⟨?_, ?_, ?_, ?_⟩
  · exact slot_display_roundtrip.1 [tg1] "U1" tg1 te1 hg
      ⟨by decide, by decide⟩ (by simp) (by simp [tg1])
  · exact slot_display_roundtrip.2.1 [tg1] ["U1", "U2"] tg1 te1 "U1" hg hus
      (by simp) (by simp) (by simp [tg1]) (by simp [te1]) (by simp)
  · exact slot_display_roundtrip.2.2.1 [tg1] ["U1", "U2"] tg1 te2 hg hus
      (by simp) (by simp [tg1]) (by simp [te2])
  · exact slot_display_roundtrip.2.2.2 [rg1] rg1 rd1 "10:00" hr (by simp)
      (by simp [rg1]) (by simp [rd1])

end VoiceAgent
